import Mathlib

/-!
Shallow embedding of the Pulsarr backend core
(`backend/app/import_bookshelf.py`, `backend/app/bookshelf.py`,
`backend/app/autosync.py`, entity shapes from `backend/app/models.py`).

The relational store is modelled as in-memory lists of rows; SQLAlchemy
`query(...).filter(col.ilike(pat)).first()` becomes `List.find?` with an
ILIKE pattern matcher, `db.add` + `db.commit` becomes appending a row, and
an in-place ORM field update becomes replacing the first matching row.
Python truthiness of optional strings (`if x:` where `x` is `None` or a
string) is modelled explicitly, since the source branches on it.  Python
`str.strip` and `str.split` are modelled on character lists so that every
definition evaluates by kernel reduction.
-/

namespace Pulsarr

/-- Python truthiness of an optional string: `None` and `""` are falsy. -/
def pyTruthy : Option String → Bool
  | none => false
  | some s => !(s == "")

/-- Python `str.strip` on a character list: drop leading and trailing
whitespace. -/
def pyStripChars (s : List Char) : List Char :=
  ((s.dropWhile Char.isWhitespace).reverse.dropWhile Char.isWhitespace).reverse

/-- Python `str.strip` on strings. -/
def pyStrip (s : String) : String :=
  ⟨pyStripChars s.data⟩

/-- Does the character list contain `sep` as a contiguous subsequence?
Models Python's `sep in s` substring test. -/
def containsSeq (sep : List Char) : List Char → Bool
  | [] => sep.isEmpty
  | c :: rest => sep.isPrefixOf (c :: rest) || containsSeq sep rest

/-- Python `str.split(sep)` on character lists, fuelled so that the
recursion is structural (`fuel ≥ s.length` always suffices for a nonempty
separator).  Split at each leftmost occurrence of `sep`. -/
def splitSeqGo (sep : List Char) : Nat → List Char → List Char → List (List Char)
  | 0, acc, s => [acc.reverse ++ s]
  | fuel + 1, acc, s =>
    match s with
    | [] => [acc.reverse]
    | c :: rest =>
      if sep.isPrefixOf (c :: rest) then
        acc.reverse :: splitSeqGo sep fuel [] ((c :: rest).drop sep.length)
      else
        splitSeqGo sep fuel (c :: acc) rest

/-- Python `s.split(sep)` on strings (for a nonempty separator). -/
def pySplit (s sep : String) : List String :=
  (splitSeqGo sep.data s.data.length [] s.data).map (fun l => ⟨l⟩)

/-- SQL ILIKE pattern matching on lists of characters: `%` matches any
(possibly empty) substring, `_` matches exactly one character, any other
pattern character matches case-insensitively.  This is the semantics of
`column.ilike(pattern)` used by the resolution lookups. -/
def ilikeChars (p : List Char) : List Char → Bool :=
  match p with
  | [] => fun s => s.isEmpty
  | '%' :: ps => fun s => s.tails.any (fun t => ilikeChars ps t)
  | '_' :: ps => fun s =>
      match s with
      | [] => false
      | _ :: s' => ilikeChars ps s'
  | c :: ps => fun s =>
      match s with
      | [] => false
      | d :: s' => (c.toLower == d.toLower) && ilikeChars ps s'

/-- `ilikeMatch pat s` : does the stored string `s` match ILIKE pattern `pat`. -/
def ilikeMatch (pat s : String) : Bool :=
  ilikeChars pat.data s.data

/-- Case-folding of a string, character by character (ASCII lower-casing,
Python's `.lower()` / SQL `lower()` restricted to ASCII names). -/
def lowerStr (s : String) : String :=
  ⟨s.data.map Char.toLower⟩

/-- `authors` row (`models.Author`): the import pipeline creates local-only
authors with no OpenLibrary id and no image. -/
structure Author where
  id : Nat
  name : String
  ol_id : Option String
  image_url : Option String
  monitored : Bool
  deriving Repr, DecidableEq

/-- `books` row (`models.Book`). -/
structure Book where
  id : Nat
  title : String
  ol_id : Option String
  first_publish_year : Option Nat
  cover_url : Option String
  abs_cover_url : Option String
  author_id : Nat
  deriving Repr, DecidableEq

/-- `narrators` row (`models.Narrator`). -/
structure Narrator where
  id : Nat
  name : String
  deriving Repr, DecidableEq

/-- `book_narrators` association row (`models.BookNarrator`). -/
structure BookNarrator where
  book_id : Nat
  narrator_id : Nat
  deriving Repr, DecidableEq

/-- The persistent store: the four tables, plus the autoincrement counters
for the three entity tables.  Rows are kept in insertion order, so
`.first()` lookups return the earliest matching row. -/
structure DB where
  authors : List Author
  books : List Book
  narrators : List Narrator
  bookNarrators : List BookNarrator
  nextAuthorId : Nat
  nextBookId : Nat
  nextNarratorId : Nat
  deriving Repr, DecidableEq

/-- The empty store with counters starting at 1. -/
def DB.empty : DB :=
  ⟨[], [], [], [], 1, 1, 1⟩

/-- Narrator ids currently attached to a book (`book.narrators`, as ids). -/
def attachedIds (db : DB) (bookId : Nat) : List Nat :=
  (db.bookNarrators.filter (fun bn => bn.book_id == bookId)).map
    (fun bn => bn.narrator_id)

/-- The narrator rows currently attached to a book, in association order
(`book.narrators` as row objects). -/
def attachedNarrators (db : DB) (bookId : Nat) : List Narrator :=
  (attachedIds db bookId).filterMap
    (fun nid => db.narrators.find? (fun n => n.id == nid))

/-- Names of the narrators currently attached to a book: the pipeline's
`attached = set(n.name for n in book.narrators)` (membership is exact,
case-sensitive string equality). -/
def attachedNames (db : DB) (bookId : Nat) : List String :=
  (attachedNarrators db bookId).map (fun n => n.name)

/-- `resolve_author(db, name)` from `import_bookshelf.py`: case-insensitive
(ILIKE) exact-name lookup; reuse the first match, else create a local-only
author with `monitored=True`, no `ol_id`, no `image_url`. -/
def resolve_author (db : DB) (name : String) : Author × DB :=
  match db.authors.find? (fun a => ilikeMatch name a.name) with
  | some a => (a, db)
  | none =>
    let a : Author :=
      { id := db.nextAuthorId, name := name, ol_id := none,
        image_url := none, monitored := true }
    (a, { db with authors := db.authors ++ [a],
                  nextAuthorId := db.nextAuthorId + 1 })

/-- Replace the first list element satisfying `p` by `f` of it: the model of
mutating the single row returned by `.first()`. -/
def updateFirst (p : α → Bool) (f : α → α) : List α → List α
  | [] => []
  | x :: xs => if p x then f x :: xs else x :: updateFirst p f xs

/-- The lookup predicate of `resolve_book`: same `author_id`, title matching
case-insensitively (ILIKE). -/
def bookKey (authorId : Nat) (title : String) (b : Book) : Bool :=
  b.author_id == authorId && ilikeMatch title b.title

/-- `resolve_book(db, author, title, abs_cover_url)`: look up by
(author_id, ILIKE title); if found and the incoming cover is truthy while
the stored `abs_cover_url` is falsy, backfill it (no other field changes);
else create a book owned by the author with the incoming cover. -/
def resolve_book (db : DB) (author : Author) (title : String)
    (abs_cover_url : Option String) : Book × DB :=
  match db.books.find? (bookKey author.id title) with
  | some b =>
    if pyTruthy abs_cover_url && !pyTruthy b.abs_cover_url then
      let b' := { b with abs_cover_url := abs_cover_url }
      (b', { db with books := updateFirst (bookKey author.id title)
                                (fun x => { x with abs_cover_url := abs_cover_url })
                                db.books })
    else (b, db)
  | none =>
    let b : Book :=
      { id := db.nextBookId, title := title, ol_id := none,
        first_publish_year := none, cover_url := none,
        abs_cover_url := abs_cover_url, author_id := author.id }
    (b, { db with books := db.books ++ [b], nextBookId := db.nextBookId + 1 })

/-- The loop body of `resolve_narrators`: `attached` is the set of names
computed once at entry (`set(n.name for n in book.narrators)`, exact string
membership); the association collection itself is read live, so the
found-narrator membership test (`narrator not in book.narrators`, row
identity) consults the current store.  A freshly created narrator object is
never already in the collection, so the create branch always attaches. -/
def resolve_narrators_go (attached : List String) (bookId : Nat) :
    DB → List String → DB
  | db, [] => db
  | db, name :: rest =>
    let name := pyStrip name
    if name == "" || attached.contains name then
      resolve_narrators_go attached bookId db rest
    else
      match db.narrators.find? (fun n => ilikeMatch name n.name) with
      | some nr =>
        if (attachedIds db bookId).contains nr.id then
          resolve_narrators_go attached bookId db rest
        else
          resolve_narrators_go attached bookId
            { db with bookNarrators := db.bookNarrators ++ [⟨bookId, nr.id⟩] }
            rest
      | none =>
        let nr : Narrator := ⟨db.nextNarratorId, name⟩
        resolve_narrators_go attached bookId
          { db with narrators := db.narrators ++ [nr],
                    nextNarratorId := db.nextNarratorId + 1,
                    bookNarrators := db.bookNarrators ++ [⟨bookId, nr.id⟩] }
          rest

/-- `resolve_narrators(db, book, narrator_names)`: ensure narrators exist
(case-insensitive global lookup, create when absent) and attach them to the
book; never detaches. -/
def resolve_narrators (db : DB) (book : Book) (narrator_names : List String) :
    DB :=
  resolve_narrators_go (attachedNames db book.id) book.id db narrator_names

/-- A per-item outcome record of the import pipeline: the dry-run
`{title, authors, narrators, abs_cover_url, action:"would_import"}` dict or
the live `{book_id, title, author, narrators, abs_cover_url}` dict. -/
inductive Outcome where
  | wouldImport (title : String) (authors : List String)
      (narrators : List String) (abs_cover_url : Option String)
  | imported (book_id : Nat) (title : String) (author : String)
      (narrators : List String) (abs_cover_url : Option String)
  deriving Repr, DecidableEq

/-- A normalized item as consumed by the importer: the
`{title, authors, narrators, abs_cover_url}` dict produced by
`normalize_item` (absent lists are already merged with `or []`). -/
structure NormalizedItem where
  title : Option String
  authors : List String
  narrators : List String
  abs_cover_url : Option String
  deriving Repr, DecidableEq

/-- Processing of one item of the batch inside `import_bookshelf_items`:
skip when the title is falsy or the author list is empty; in dry-run mode
emit a `would_import` record and leave the store alone; in live mode
resolve author, book and narrators and emit the post-resolution record. -/
def import_item (dry_run : Bool) (db : DB) (item : NormalizedItem) :
    DB × Option Outcome :=
  match item.title, item.authors with
  | some t, a0 :: rest =>
    if t == "" then (db, none)
    else if dry_run then
      (db, some (.wouldImport t (a0 :: rest) item.narrators item.abs_cover_url))
    else
      let primary := pyStrip a0
      let adb := resolve_author db primary
      let bdb := resolve_book adb.2 adb.1 t item.abs_cover_url
      let db2 := if item.narrators.isEmpty then bdb.2
                 else resolve_narrators bdb.2 bdb.1 item.narrators
      (db2, some (.imported bdb.1.id bdb.1.title adb.1.name
                    (attachedNames db2 bdb.1.id) bdb.1.abs_cover_url))
  | _, _ => (db, none)

/-- `import_bookshelf_items(db, items, dry_run)`: fold `import_item` over
the batch, collecting the emitted outcome records in order. -/
def import_bookshelf_items (db : DB) (items : List NormalizedItem)
    (dry_run : Bool) : DB × List Outcome :=
  match items with
  | [] => (db, [])
  | i :: rest =>
    let step := import_item dry_run db i
    let res := import_bookshelf_items step.1 rest dry_run
    (res.1, match step.2 with
            | none => res.2
            | some o => o :: res.2)

/-- A structured author entry of a raw upstream item (`item["authors"]`). -/
structure RawAuthor where
  name : Option String
  deriving Repr, DecidableEq

/-- `media.metadata` of a raw upstream item. -/
structure RawMetadata where
  title : Option String
  authorName : Option String
  narratorName : Option String
  deriving Repr, DecidableEq

/-- `media` of a raw upstream item. -/
structure RawMedia where
  metadata : Option RawMetadata
  deriving Repr, DecidableEq

/-- A raw Audiobookshelf item, with the fields `normalize_item` reads
(an absent key is `none`; `relPath` is read with default `""`). -/
structure RawItem where
  id : Option String
  title : Option String
  name : Option String
  relPath : Option String
  media : Option RawMedia
  authors : List RawAuthor
  deriving Repr, DecidableEq

/-- `item.get("media", {}).get("metadata", {})`: missing levels collapse to
an empty metadata dict. -/
def RawItem.meta (item : RawItem) : RawMetadata :=
  match item.media with
  | none => ⟨none, none, none⟩
  | some m => m.metadata.getD ⟨none, none, none⟩

/-- Python `a or b` on optional strings: keep `a` when truthy, else `b`. -/
def pyOr (a b : Option String) : Option String :=
  if pyTruthy a then a else b

/-- `[x.strip() for x in field.split(",") if x.strip()]`: split a delimited
name string on commas, trim, drop empties. -/
def splitNames (field : String) : List String :=
  (pySplit field ",").filterMap
    (fun x => if pyStrip x == "" then none else some (pyStrip x))

/-- Structured ABS author names: each entry's truthy `name`, stripped. -/
def structuredAuthors (item : RawItem) : List String :=
  item.authors.filterMap
    (fun a => match a.name with
      | some n => if n == "" then none else some (pyStrip n)
      | none => none)

/-- The author-extraction cascade of `normalize_item`: structured authors,
else a comma-split of `media.metadata.authorName`, else the folder-name
fallback taking the part of `relPath` before the first `" - "`. -/
def normalizeAuthors (item : RawItem) : List String :=
  let fromStructured := structuredAuthors item
  let fromField :=
    if fromStructured.isEmpty then
      match item.meta.authorName with
      | some f => if f == "" then fromStructured else splitNames f
      | none => fromStructured
    else fromStructured
  if fromField.isEmpty then
    let rel := item.relPath.getD ""
    if containsSeq " - ".data rel.data then
      let possible := pyStrip ((pySplit rel " - ").headD "")
      if possible == "" then fromField else fromField ++ [possible]
    else fromField
  else fromField

/-- Narrator extraction of `normalize_item`: comma-split of a truthy
`media.metadata.narratorName`; no fallback. -/
def normalizeNarrators (item : RawItem) : List String :=
  match item.meta.narratorName with
  | some f => if f == "" then [] else splitNames f
  | none => []

/-- `extract_cover_url`: the deterministic per-item cover endpoint, `None`
when the item has no (truthy) id.  `base_url` is the client's base URL. -/
def extract_cover_url (base_url : String) (item : RawItem) : Option String :=
  match item.id with
  | none => none
  | some i =>
    if i == "" then none
    else some (base_url ++ "/api/items/" ++ i ++ "/cover")

/-- `normalize_item`: title preference chain (`metadata.title`, item
`title`, item `name` under Python `or`), the author cascade, narrator
split, and the derived cover URL. -/
def normalize_item (base_url : String) (item : RawItem) : NormalizedItem :=
  { title := pyOr (pyOr item.meta.title item.title) item.name
    authors := normalizeAuthors item
    narrators := normalizeNarrators item
    abs_cover_url := extract_cover_url base_url item }

/-- `last_result` of the sync scheduler: the
`{imported_count, timestamp}` dict of a successful cycle or the
`{error: message}` dict of a failed one. -/
inductive SyncResult where
  | ok (imported_count : Nat) (timestamp : String)
  | error (message : String)
  deriving Repr, DecidableEq

/-- `AUTOSYNC_STATE`: the scheduler's in-memory run state. -/
structure AutosyncState where
  enabled : Bool
  interval_hours : Nat
  last_run : Option String
  last_result : Option SyncResult
  deriving Repr, DecidableEq

/-- `run_sync_now(base_url, api_key)`: one synchronous cycle.  The upstream
fetch (`get_all_items`) is passed in as its outcome: a list of raw items or
the message of a raised exception.  On success the items are normalized and
imported in live mode and both `last_run` and `last_result` are updated; on
an exception only `last_result` is set, to the error shape, and the
function still returns normally (the `except` clause swallows it). -/
def run_sync_now (st : AutosyncState) (db : DB) (base_url : String)
    (fetch : Except String (List RawItem)) (now : String) :
    AutosyncState × DB × SyncResult :=
  match fetch with
  | .ok raw_items =>
    let normalized := raw_items.map (normalize_item base_url)
    let imported := import_bookshelf_items db normalized false
    ({ st with last_run := some now,
               last_result := some (.ok imported.2.length now) },
     imported.1, .ok imported.2.length now)
  | .error e =>
    ({ st with last_result := some (.error e) }, db, .error e)

/-- `trigger_sync_now(base_url, api_key)`: the manual "Sync Now" entry
point; it simply runs one cycle, with no check of the enabled flag. -/
def trigger_sync_now (st : AutosyncState) (db : DB) (base_url : String)
    (fetch : Except String (List RawItem)) (now : String) :
    AutosyncState × DB × SyncResult :=
  run_sync_now st db base_url fetch now

/-- One named library of the upstream `/api/libraries` response:
`lib.get("name", "")` and `lib["id"]`. -/
structure LibraryInfo where
  name : String
  id : String
  deriving Repr, DecidableEq

/-- The collection-id cache of `BookshelfClient` (its only mutable state
relevant here). -/
structure BookshelfClient where
  base_url : String
  library_id_cache : Option String
  deriving Repr, DecidableEq

/-- `_get_library_id(name)`: return the cache when it is truthy; else
consult the upstream's library list (`upstream` stands for the body of the
`GET /api/libraries` response), match the name case-insensitively, cache
and return the id of the first match, or fail. -/
def get_library_id (c : BookshelfClient) (upstream : List LibraryInfo)
    (name : String) : Except String (String × BookshelfClient) :=
  if pyTruthy c.library_id_cache then
    .ok (c.library_id_cache.getD "", c)
  else
    match upstream.find? (fun lib => lowerStr lib.name == lowerStr name) with
    | some lib => .ok (lib.id, { c with library_id_cache := some lib.id })
    | none => .error ("Audiobookshelf library not found: " ++ lowerStr name)

/-- An item the pipeline processes (does not skip): truthy title and a
nonempty author list. -/
def itemProcessed (i : NormalizedItem) : Bool :=
  pyTruthy i.title && !i.authors.isEmpty

/-- Referential well-formedness of a store, as SQLAlchemy maintains it:
every row id is below its table's autoincrement counter, and the foreign
keys of books and of book-narrator associations point at existing rows. -/
def DBWF (db : DB) : Prop :=
  (∀ a ∈ db.authors, a.id < db.nextAuthorId) ∧
  (∀ b ∈ db.books, b.id < db.nextBookId) ∧
  (∀ n ∈ db.narrators, n.id < db.nextNarratorId) ∧
  (∀ b ∈ db.books, ∃ a ∈ db.authors, a.id = b.author_id) ∧
  (∀ bn ∈ db.bookNarrators,
    (∃ b ∈ db.books, b.id = bn.book_id) ∧
    (∃ n ∈ db.narrators, n.id = bn.narrator_id))

/-- The data-model invariant that narrator names are globally unique up to
case: two narrator rows with case-insensitively equal names are the same
row. -/
def narratorsCIUnique (db : DB) : Prop :=
  ∀ n1 ∈ db.narrators, ∀ n2 ∈ db.narrators,
    lowerStr n1.name = lowerStr n2.name → n1 = n2

/-- A plain name: no SQL LIKE wildcard characters, so an ILIKE lookup with
it is exactly a case-insensitive equality test. -/
def plainName (s : String) : Bool :=
  s.data.all (fun c => !(c == '%') && !(c == '_'))

/-- A stripped narrator name is settled for a book: processing it again is
a no-op.  Either it is empty, or it is the exact name of an attached
narrator (the loop's `attached` set skips it), or the narrator its ILIKE
lookup returns is already attached (the `narrator not in book.narrators`
test skips it). -/
def NameSettled (db : DB) (bid : Nat) (nm : String) : Prop :=
  nm = "" ∨ nm ∈ attachedNames db bid ∨
    ∃ N, db.narrators.find? (fun n => ilikeMatch nm n.name) = some N ∧
      N.id ∈ attachedIds db bid

/-- An item is settled in a store: re-importing it in live mode changes
nothing.  Its author lookup succeeds, the book lookup under that author
succeeds with the backfill condition false, and every narrator name is
settled for that book. -/
def ItemSettled (db : DB) (i : NormalizedItem) : Prop :=
  match i.title, i.authors with
  | some t, a0 :: _ =>
    t = "" ∨
    ∃ a, db.authors.find? (fun x => ilikeMatch (pyStrip a0) x.name) = some a ∧
      ∃ b, db.books.find? (bookKey a.id t) = some b ∧
        (pyTruthy i.abs_cover_url && !pyTruthy b.abs_cover_url) = false ∧
        ∀ m ∈ i.narrators, NameSettled db b.id (pyStrip m)
  | _, _ => True

/-- How the books table may evolve during an import: any lookup that
succeeded still succeeds, at a row with the same id whose override cover
is unchanged or truthy (the pipeline only appends books and backfills
covers with truthy values). -/
def BooksPreserve (l l' : List Book) : Prop :=
  ∀ (aid : Nat) (t : String) (b : Book),
    l.find? (bookKey aid t) = some b →
    ∃ b', l'.find? (bookKey aid t) = some b' ∧ b'.id = b.id ∧
      (b'.abs_cover_url = b.abs_cover_url ∨ pyTruthy b'.abs_cover_url = true)

/-- The store evolution of the live import pipeline: authors are only
appended, narrators and associations are only appended, and the books
table evolves by appends and truthy cover backfills. -/
def DBStep (db db' : DB) : Prop :=
  (∃ ext, db'.authors = db.authors ++ ext) ∧
  db.narrators <+: db'.narrators ∧
  db.bookNarrators <+: db'.bookNarrators ∧
  BooksPreserve db.books db'.books

/-! ### Lemmas about the ILIKE matcher -/

theorem ilikeChars_nil (s : List Char) : ilikeChars [] s = s.isEmpty := rfl

theorem ilikeChars_pct (ps : List Char) (s : List Char) :
    ilikeChars ('%' :: ps) s = s.tails.any (fun t => ilikeChars ps t) := rfl

theorem ilikeChars_us_nil (ps : List Char) :
    ilikeChars ('_' :: ps) [] = false := rfl

theorem ilikeChars_us_cons (ps : List Char) (d : Char) (s : List Char) :
    ilikeChars ('_' :: ps) (d :: s) = ilikeChars ps s := rfl

theorem ilikeChars_lit_nil (c : Char) (ps : List Char) (h1 : c ≠ '%') :
    ilikeChars (c :: ps) [] = false := by
  by_cases h2 : c = '_'
  · subst h2
    rfl
  · rw [ilikeChars.eq_def]
    simp [h1, h2]

theorem ilikeChars_lit_cons (c : Char) (ps : List Char) (d : Char)
    (s : List Char) (h1 : c ≠ '%') (h2 : c ≠ '_') :
    ilikeChars (c :: ps) (d :: s) =
      ((c.toLower == d.toLower) && ilikeChars ps s) := by
  rw [ilikeChars.eq_def]
  simp [h1, h2]

theorem char_toNat_ofNat (m : Nat) (h : m < 55296) : (Char.ofNat m).toNat = m := by
  rw [Char.ofNat, dif_pos (Or.inl h)]
  rfl

theorem toLower_eq_of_not_lower {c t : Char} (ht : t.toNat < 97 ∨ 122 < t.toNat)
    (h : c.toLower = t) : c = t := by
  unfold Char.toLower at h
  simp only [] at h
  by_cases hc : c.toNat ≥ 65 ∧ c.toNat ≤ 90
  case pos =>
    rw [if_pos hc] at h
    exfalso
    have h2 : (Char.ofNat (c.toNat + 32)).toNat = t.toNat := by rw [h]
    rw [char_toNat_ofNat _ (by omega)] at h2
    omega
  case neg =>
    rw [if_neg hc] at h
    exact h

theorem self_mem_tails (s : List Char) : s ∈ s.tails := by
  cases s <;> simp

theorem ilikeChars_pct_of {ps s : List Char} (h : ilikeChars ps s = true) :
    ilikeChars ('%' :: ps) s = true := by
  rw [ilikeChars_pct]
  exact List.any_eq_true.mpr ⟨s, self_mem_tails s, h⟩

theorem ilikeChars_pct_eat {ps s : List Char} (d : Char)
    (h : ilikeChars ('%' :: ps) s = true) :
    ilikeChars ('%' :: ps) (d :: s) = true := by
  rw [ilikeChars_pct] at h ⊢
  rw [List.tails_cons]
  obtain ⟨t, ht, hm⟩ := List.any_eq_true.mp h
  exact List.any_eq_true.mpr ⟨t, by simp [ht], hm⟩

theorem ilikeChars_self (p : List Char) : ilikeChars p p = true := by
  induction p with
  | nil => rfl
  | cons c ps ih =>
    by_cases h1 : c = '%'
    · subst h1
      exact ilikeChars_pct_eat '%' (ilikeChars_pct_of ih)
    · by_cases h2 : c = '_'
      · subst h2
        rw [ilikeChars_us_cons]
        exact ih
      · rw [ilikeChars_lit_cons c ps c ps h1 h2]
        simp [ih]

theorem ilikeChars_of_lower_eq : ∀ (p s : List Char),
    List.map Char.toLower p = List.map Char.toLower s → ilikeChars p s = true
  | [], [], _ => rfl
  | [], _ :: _, h => by simp at h
  | _ :: _, [], h => by simp at h
  | c :: ps, d :: s, h => by
    simp only [List.map_cons, List.cons.injEq] at h
    obtain ⟨hcd, hps⟩ := h
    by_cases h1 : c = '%'
    · subst h1
      exact ilikeChars_pct_eat d (ilikeChars_pct_of (ilikeChars_of_lower_eq ps s hps))
    · by_cases h2 : c = '_'
      · subst h2
        rw [ilikeChars_us_cons]
        exact ilikeChars_of_lower_eq ps s hps
      · rw [ilikeChars_lit_cons c ps d s h1 h2]
        simp [hcd, ilikeChars_of_lower_eq ps s hps]

theorem ilikeChars_congr : ∀ (p q : List Char),
    List.map Char.toLower p = List.map Char.toLower q →
    ∀ s : List Char, ilikeChars p s = ilikeChars q s
  | [], [], _ => fun _ => rfl
  | [], _ :: _, h => by simp at h
  | _ :: _, [], h => by simp at h
  | c :: ps, d :: qs, h => by
    simp only [List.map_cons, List.cons.injEq] at h
    obtain ⟨hcd, hpq⟩ := h
    intro s
    by_cases h1 : c = '%'
    · subst h1
      have hd : d = '%' :=
        toLower_eq_of_not_lower (Or.inl (by decide)) (hcd.symm.trans (by decide))
      subst hd
      rw [ilikeChars_pct, ilikeChars_pct,
          funext (fun t => ilikeChars_congr ps qs hpq t)]
    · by_cases h2 : c = '_'
      · subst h2
        have hd : d = '_' :=
          toLower_eq_of_not_lower (Or.inl (by decide)) (hcd.symm.trans (by decide))
        subst hd
        cases s with
        | nil => rfl
        | cons e s' =>
          rw [ilikeChars_us_cons, ilikeChars_us_cons]
          exact ilikeChars_congr ps qs hpq s'
      · have hd1 : d ≠ '%' := by
          intro hdd
          subst hdd
          exact h1 (toLower_eq_of_not_lower (Or.inl (by decide)) (hcd.trans (by decide)))
        have hd2 : d ≠ '_' := by
          intro hdd
          subst hdd
          exact h2 (toLower_eq_of_not_lower (Or.inl (by decide)) (hcd.trans (by decide)))
        cases s with
        | nil =>
          rw [ilikeChars_lit_nil c ps h1, ilikeChars_lit_nil d qs hd1]
        | cons e s' =>
          rw [ilikeChars_lit_cons c ps e s' h1 h2,
              ilikeChars_lit_cons d qs e s' hd1 hd2]
          rw [hcd, ilikeChars_congr ps qs hpq s']

theorem ilikeMatch_self (s : String) : ilikeMatch s s = true :=
  ilikeChars_self s.data

theorem lowerStr_data (s : String) :
    (lowerStr s).data = s.data.map Char.toLower := rfl

theorem ilikeMatch_of_lower_eq {p s : String} (h : lowerStr p = lowerStr s) :
    ilikeMatch p s = true :=
  ilikeChars_of_lower_eq p.data s.data (congrArg String.data h)

theorem ilikeMatch_congr {p q : String} (h : lowerStr p = lowerStr q)
    (s : String) : ilikeMatch p s = ilikeMatch q s :=
  ilikeChars_congr p.data q.data (congrArg String.data h) s.data

/-! ### Per-item pipeline lemmas -/

theorem import_item_skip {i : NormalizedItem} (dry : Bool) (db : DB)
    (h : itemProcessed i = false) : import_item dry db i = (db, none) := by
  unfold itemProcessed at h
  unfold import_item
  cases ht : i.title with
  | none => rfl
  | some t =>
    cases ha : i.authors with
    | nil => rfl
    | cons a0 rest =>
      rw [ht, ha] at h
      simp only [pyTruthy, List.isEmpty_cons, Bool.not_false, Bool.and_true,
        Bool.not_eq_true'] at h
      have ht0 : t = "" := by simpa using h
      simp [ht0]

theorem import_item_dry_eq (db : DB) (i : NormalizedItem) :
    import_item true db i =
      (db, if itemProcessed i then
             some (.wouldImport (i.title.getD "") i.authors i.narrators
                     i.abs_cover_url)
           else none) := by
  by_cases h : itemProcessed i = true
  case neg =>
    rw [import_item_skip true db (Bool.not_eq_true _ ▸ h)]
    simp [h]
  case pos =>
    rw [if_pos h]
    unfold itemProcessed at h
    unfold import_item
    cases ht : i.title with
    | none => rw [ht] at h; simp [pyTruthy] at h
    | some t =>
      cases ha : i.authors with
      | nil => rw [ha] at h; simp at h
      | cons a0 rest =>
        rw [ht, ha] at h
        simp only [pyTruthy, Bool.and_eq_true, Bool.not_eq_true',
          beq_eq_false_iff_ne, ne_eq] at h
        simp [h.1, ht, ha]

theorem import_item_isSome (dry : Bool) (db : DB) (i : NormalizedItem) :
    (import_item dry db i).2.isSome = itemProcessed i := by
  by_cases h : itemProcessed i = true
  case neg =>
    rw [import_item_skip dry db (Bool.not_eq_true _ ▸ h)]
    simp [Bool.not_eq_true _ ▸ h]
  case pos =>
    rw [h]
    unfold itemProcessed at h
    unfold import_item
    cases ht : i.title with
    | none => rw [ht] at h; simp [pyTruthy] at h
    | some t =>
      cases ha : i.authors with
      | nil => rw [ha] at h; simp at h
      | cons a0 rest =>
        rw [ht, ha] at h
        simp only [pyTruthy, Bool.and_eq_true, Bool.not_eq_true',
          beq_eq_false_iff_ne, ne_eq] at h
        by_cases hd : dry = true <;> simp [h.1, hd]

theorem import_items_length (db : DB) (items : List NormalizedItem)
    (dry : Bool) :
    (import_bookshelf_items db items dry).2.length =
      items.countP itemProcessed := by
  induction items generalizing db with
  | nil => rfl
  | cons i rest ih =>
    unfold import_bookshelf_items
    have hs := import_item_isSome dry db i
    rw [List.countP_cons]
    cases ho : (import_item dry db i).2 with
    | none =>
      rw [ho] at hs
      simp only [Option.isSome_none] at hs
      simp [ho, ih, ← hs]
    | some o =>
      rw [ho] at hs
      simp only [Option.isSome_some] at hs
      simp [ho, ih, ← hs]

/-! ### Claim theorems -/

/-- **C3**: dry-run import performs no store mutation at all — the store
comes back exactly as it went in — and emits, for each non-skipped item,
the `{title, authors, narrators, cover_url, action:"would_import"}` record
built from that item's fields. -/
theorem C3_dry_run_frame (db : DB) (items : List NormalizedItem) :
    (import_bookshelf_items db items true).1 = db ∧
    (import_bookshelf_items db items true).2 =
      (items.filter itemProcessed).map
        (fun i => .wouldImport (i.title.getD "") i.authors i.narrators
                    i.abs_cover_url) := by
  induction items generalizing db with
  | nil => exact ⟨rfl, rfl⟩
  | cons i rest ih =>
    unfold import_bookshelf_items
    rw [import_item_dry_eq db i]
    by_cases h : itemProcessed i = true
    · simp only [h, if_pos]
      refine ⟨(ih db).1, ?_⟩
      rw [List.filter_cons_of_pos h]
      simp [(ih db).2]
    · simp only [Bool.not_eq_true] at h
      simp only [h]
      refine ⟨(ih db).1, ?_⟩
      rw [List.filter_cons_of_neg (by simp [h])]
      simp [(ih db).2]

/-- **C4**: an item with a falsy title or an empty author list contributes
no outcome and no store effect, and its presence anywhere in the batch does
not change what the other items produce: importing the batch with the item
is exactly importing the batch without it. -/
theorem C4_skip_no_effect (db : DB) (xs ys : List NormalizedItem)
    (bad : NormalizedItem) (dry : Bool) (hbad : itemProcessed bad = false) :
    import_bookshelf_items db (xs ++ bad :: ys) dry =
      import_bookshelf_items db (xs ++ ys) dry := by
  induction xs generalizing db with
  | nil =>
    simp only [List.nil_append]
    conv_lhs => rw [import_bookshelf_items]
    rw [import_item_skip dry db hbad]
  | cons x xs ih =>
    simp only [List.cons_append]
    unfold import_bookshelf_items
    simp only [ih]

/-- **C4 witness**: a batch with a skipped item (empty authors) between two
processed items behaves exactly like the batch without it. -/
theorem C4_skip_no_effect_witness :
    itemProcessed ⟨some "Ghost", [], [], none⟩ = false ∧
    import_bookshelf_items DB.empty
        ([⟨some "A", ["X"], [], none⟩] ++
          ⟨some "Ghost", [], [], none⟩ :: [⟨some "B", ["Y"], [], none⟩]) false =
      import_bookshelf_items DB.empty
        ([⟨some "A", ["X"], [], none⟩] ++ [⟨some "B", ["Y"], [], none⟩]) false :=
  ⟨by decide,
   C4_skip_no_effect DB.empty [⟨some "A", ["X"], [], none⟩]
     [⟨some "B", ["Y"], [], none⟩] ⟨some "Ghost", [], [], none⟩ false
     (by decide)⟩

/-- **C7**: normalizing the raw item
`{media:{metadata:{authorName:"Jane Doe, John Roe", narratorName:"Pat Lee"}},
title:"Dune"}` yields title `"Dune"`, authors `["Jane Doe","John Roe"]`,
narrators `["Pat Lee"]` and the cover URL derived from the item; in
general the normalized cover is `extract_cover_url`, which is the
deterministic `/api/items/{id}/cover` endpoint for a truthy id and `None`
when the item has no id. -/
theorem C7_normalize_scenario :
    (∀ base_url : String,
      normalize_item base_url
        ⟨none, some "Dune", none, none,
          some ⟨some ⟨none, some "Jane Doe, John Roe", some "Pat Lee"⟩⟩, []⟩ =
        ⟨some "Dune", ["Jane Doe", "John Roe"], ["Pat Lee"],
          extract_cover_url base_url
            ⟨none, some "Dune", none, none,
              some ⟨some ⟨none, some "Jane Doe, John Roe", some "Pat Lee"⟩⟩, []⟩⟩) ∧
    (∀ (base_url : String) (item : RawItem),
      (normalize_item base_url item).abs_cover_url =
        extract_cover_url base_url item) ∧
    (∀ (base_url : String) (item : RawItem) (i : String),
      item.id = some i → i ≠ "" →
      extract_cover_url base_url item =
        some (base_url ++ "/api/items/" ++ i ++ "/cover")) ∧
    (∀ (base_url : String) (item : RawItem),
      item.id = none → extract_cover_url base_url item = none) := by
  refine ⟨fun base_url => ?_, fun _ _ => rfl, fun base_url item i hid hne => ?_,
    fun base_url item hid => ?_⟩
  · simp only [normalize_item, NormalizedItem.mk.injEq]
    exact ⟨by decide, by decide, by decide, trivial⟩
  · unfold extract_cover_url
    rw [hid]
    simp [hne]
  · unfold extract_cover_url
    rw [hid]

/-- **C7 witness**: the cover endpoint at a concrete item id. -/
theorem C7_normalize_scenario_witness :
    extract_cover_url "http://abs" ⟨some "li9", none, none, none, none, []⟩ =
      some ("http://abs" ++ "/api/items/" ++ "li9" ++ "/cover") :=
  C7_normalize_scenario.2.2.1 "http://abs"
    ⟨some "li9", none, none, none, none, []⟩ "li9" rfl (by decide)

/-- **C8**: `trigger_sync_now` runs exactly one cycle independent of the
enabled flag (the store effect and the recorded result do not depend on
it); on a successful fetch it updates both `last_run` and `last_result`;
on a raised exception the cycle returns normally with `last_result` set to
the `{error: message}` shape (and the store untouched). -/
theorem C8_trigger_now (st : AutosyncState) (db : DB) (base : String)
    (fetch : Except String (List RawItem)) (now : String) :
    trigger_sync_now st db base fetch now = run_sync_now st db base fetch now ∧
    (∀ e1 e2 : Bool,
      (run_sync_now { st with enabled := e1 } db base fetch now).2 =
        (run_sync_now { st with enabled := e2 } db base fetch now).2 ∧
      (run_sync_now { st with enabled := e1 } db base fetch now).1.last_run =
        (run_sync_now { st with enabled := e2 } db base fetch now).1.last_run ∧
      (run_sync_now { st with enabled := e1 } db base fetch now).1.last_result =
        (run_sync_now { st with enabled := e2 } db base fetch now).1.last_result) ∧
    (∀ raws, fetch = .ok raws →
      (run_sync_now st db base fetch now).1.last_run = some now ∧
      ∃ k, (run_sync_now st db base fetch now).1.last_result =
             some (.ok k now)) ∧
    (∀ msg, fetch = .error msg →
      run_sync_now st db base fetch now =
        ({ st with last_result := some (.error msg) }, db, .error msg)) := by
  refine ⟨rfl, fun e1 e2 => ?_, fun raws hraw => ?_, fun msg hmsg => ?_⟩
  · cases fetch <;> exact ⟨rfl, rfl, rfl⟩
  · subst hraw
    constructor
    · rfl
    · exact ⟨_, rfl⟩
  · subst hmsg
    rfl

/-- **C8 witness**: a failing fetch at concrete inputs is caught and
recorded as `{error: message}`. -/
theorem C8_trigger_now_witness :
    run_sync_now ⟨true, 6, none, none⟩ DB.empty "http://abs"
        (.error "boom") "t0" =
      (⟨true, 6, none, some (.error "boom")⟩, DB.empty, .error "boom") :=
  (C8_trigger_now ⟨true, 6, none, none⟩ DB.empty "http://abs"
      (.error "boom") "t0").2.2.2 "boom" rfl

/-- **C9 counterexample**: the claim fails when the resolved collection id
is the empty string: the empty id is cached but the cache test is a Python
truthiness test, so a later call consults the upstream again (here it
returns a different id from changed upstream data instead of the cached
one). -/
theorem C9_cached_id_counterexample :
    get_library_id ⟨"http://abs", none⟩ [⟨"audiobooks", ""⟩] "audiobooks" =
      .ok ("", ⟨"http://abs", some ""⟩) ∧
    get_library_id ⟨"http://abs", some ""⟩ [⟨"audiobooks", "other"⟩]
        "audiobooks" =
      .ok ("other", ⟨"http://abs", some "other"⟩) := by
  constructor <;> rfl

/-- **C9 (amended)**: once the client has resolved a collection id that is
truthy (non-empty), every later call — whatever its name argument and
whatever the upstream would now answer — returns that cached id without
consulting the upstream, and leaves the client unchanged. -/
theorem C9_cached_id_reused (c c' : BookshelfClient)
    (upstream1 upstream2 : List LibraryInfo) (name1 name2 lid : String)
    (h : get_library_id c upstream1 name1 = .ok (lid, c')) (hid : lid ≠ "") :
    get_library_id c' upstream2 name2 = .ok (lid, c') := by
  unfold get_library_id at h ⊢
  by_cases hc : pyTruthy c.library_id_cache = true
  · rw [if_pos hc] at h
    simp only [Except.ok.injEq, Prod.mk.injEq] at h
    obtain ⟨hv, hcge⟩ := h
    subst hcge
    rw [if_pos hc, hv]
  · rw [if_neg hc] at h
    cases hf : upstream1.find? (fun lib => lowerStr lib.name == lowerStr name1) with
    | none => rw [hf] at h; exact absurd h (by simp)
    | some lib =>
      rw [hf] at h
      simp only [Except.ok.injEq, Prod.mk.injEq] at h
      obtain ⟨hv, hcge⟩ := h
      subst hcge
      have : pyTruthy (some lib.id) = true := by
        simp [pyTruthy, hv ▸ hid]
      simp only [this, if_pos]
      simp [hv]

/-- **C9 witness**: after resolving `"lib1"` from one upstream listing, a
later call with a different name and different upstream data still returns
`"lib1"` from the cache. -/
theorem C9_cached_id_reused_witness :
    get_library_id ⟨"http://abs", some "lib1"⟩ [⟨"other", "zzz"⟩] "Books" =
      .ok ("lib1", ⟨"http://abs", some "lib1"⟩) :=
  C9_cached_id_reused ⟨"http://abs", none⟩ ⟨"http://abs", some "lib1"⟩
    [⟨"Audiobooks", "lib1"⟩] [⟨"other", "zzz"⟩] "AUDIOBOOKS" "Books" "lib1"
    (by rfl) (by decide)

/-- **C10**: after a successful cycle, `imported_count` is the number of
non-skipped items of the normalized batch (one outcome per processed item,
regardless of what already exists in the store), and a second cycle over
the same batch records the same count. -/
theorem C10_imported_count (st : AutosyncState) (db : DB) (base : String)
    (raws : List RawItem) (now now2 : String) :
    (run_sync_now st db base (.ok raws) now).1.last_result =
      some (.ok ((raws.map (normalize_item base)).countP itemProcessed) now) ∧
    (run_sync_now (run_sync_now st db base (.ok raws) now).1
        (run_sync_now st db base (.ok raws) now).2.1 base (.ok raws)
        now2).1.last_result =
      some (.ok ((raws.map (normalize_item base)).countP itemProcessed)
              now2) := by
  constructor
  · show some (SyncResult.ok
        (import_bookshelf_items db (raws.map (normalize_item base))
          false).2.length now) =
      some (SyncResult.ok
        ((raws.map (normalize_item base)).countP itemProcessed) now)
    rw [import_items_length]
  · show some (SyncResult.ok
        (import_bookshelf_items (run_sync_now st db base (.ok raws) now).2.1
          (raws.map (normalize_item base)) false).2.length now2) =
      some (SyncResult.ok
        ((raws.map (normalize_item base)).countP itemProcessed) now2)
    rw [import_items_length]

/-! ### List toolkit -/

theorem find?_append_some {α : Type} {p : α → Bool} {l1 : List α} {a : α}
    (l2 : List α) (h : l1.find? p = some a) : (l1 ++ l2).find? p = some a := by
  rw [List.find?_append, h]
  rfl

theorem find?_append_none {α : Type} {p : α → Bool} {l1 : List α}
    (l2 : List α) (h : l1.find? p = none) :
    (l1 ++ l2).find? p = l2.find? p := by
  rw [List.find?_append, h]
  rfl

theorem find?_congrP {α : Type} {p q : α → Bool} (h : ∀ x, p x = q x)
    (l : List α) : l.find? p = l.find? q := by
  rw [show p = q from funext h]

theorem updateFirst_length {α : Type} (p : α → Bool) (f : α → α)
    (l : List α) : (updateFirst p f l).length = l.length := by
  induction l with
  | nil => rfl
  | cons x xs ih =>
    unfold updateFirst
    split <;> simp [ih]

theorem find?_updateFirst_self {α : Type} {p : α → Bool} {f : α → α}
    {l : List α} {b : α} (hf : ∀ x, p (f x) = p x)
    (h : l.find? p = some b) :
    (updateFirst p f l).find? p = some (f b) := by
  induction l with
  | nil => simp at h
  | cons x xs ih =>
    by_cases hx : p x = true
    · rw [List.find?_cons_of_pos _ hx] at h
      cases h
      unfold updateFirst
      rw [if_pos hx]
      exact List.find?_cons_of_pos _ (by rw [hf, hx])
    · rw [List.find?_cons_of_neg _ (by simp [hx])] at h
      unfold updateFirst
      rw [if_neg hx]
      rw [List.find?_cons_of_neg _ (by simp [hx])]
      exact ih h

/-! ### Resolution-step characterizations -/

theorem resolve_author_found {db : DB} {name : String} {a : Author}
    (h : db.authors.find? (fun x => ilikeMatch name x.name) = some a) :
    resolve_author db name = (a, db) := by
  unfold resolve_author
  rw [h]

theorem resolve_author_create {db : DB} {name : String}
    (h : db.authors.find? (fun x => ilikeMatch name x.name) = none) :
    resolve_author db name =
      (⟨db.nextAuthorId, name, none, none, true⟩,
       { db with authors := db.authors ++ [⟨db.nextAuthorId, name, none, none, true⟩],
                 nextAuthorId := db.nextAuthorId + 1 }) := by
  unfold resolve_author
  rw [h]

theorem resolve_book_found {db : DB} {author : Author} {title : String}
    {cover : Option String} {b : Book}
    (h : db.books.find? (bookKey author.id title) = some b) :
    resolve_book db author title cover =
      if pyTruthy cover && !pyTruthy b.abs_cover_url then
        ({ b with abs_cover_url := cover },
         { db with books := updateFirst (bookKey author.id title)
                              (fun x => { x with abs_cover_url := cover })
                              db.books })
      else (b, db) := by
  unfold resolve_book
  rw [h]

theorem resolve_book_create {db : DB} {author : Author} {title : String}
    {cover : Option String}
    (h : db.books.find? (bookKey author.id title) = none) :
    resolve_book db author title cover =
      (⟨db.nextBookId, title, none, none, none, cover, author.id⟩,
       { db with
          books := db.books ++
            [⟨db.nextBookId, title, none, none, none, cover, author.id⟩],
          nextBookId := db.nextBookId + 1 }) := by
  unfold resolve_book
  rw [h]

/-- **C5 counterexample**: taking "non-null" and "null" literally, the
claim fails at the empty-string cover: an existing override cover
`some ""` is non-null, yet importing the same book with cover
`"http://x"` overwrites it; and an incoming non-null cover `some ""`
does not fill a null override cover.  The code tests Python truthiness,
not nullness. -/
theorem C5_cover_counterexample :
    (resolve_book
        ⟨[⟨1, "A", none, none, true⟩],
          [⟨1, "T", none, none, none, some "", 1⟩], [], [], 2, 2, 1⟩
        ⟨1, "A", none, none, true⟩ "T" (some "http://x")).2.books =
      [⟨1, "T", none, none, none, some "http://x", 1⟩] ∧
    (resolve_book
        ⟨[⟨1, "A", none, none, true⟩],
          [⟨1, "T", none, none, none, none, 1⟩], [], [], 2, 2, 1⟩
        ⟨1, "A", none, none, true⟩ "T" (some "")).2.books =
      [⟨1, "T", none, none, none, none, 1⟩] := by
  constructor <;> rfl

/-- **C5 (amended)**: with "non-null" read as truthy (non-null and
non-empty) and "null" as falsy (null or empty), the claim holds: when book
resolution finds an existing book, a truthy incoming cover with a falsy
stored override cover backfills exactly the `abs_cover_url` field of that
one row (every other field and every other row is untouched), and once the
stored override cover is truthy, any later import of the book leaves the
store completely unchanged. -/
theorem C5_cover_backfill (db : DB) (author : Author) (title : String)
    (cover : Option String) (b : Book)
    (hfound : db.books.find? (bookKey author.id title) = some b) :
    (pyTruthy cover = true → pyTruthy b.abs_cover_url = false →
      resolve_book db author title cover =
        ({ b with abs_cover_url := cover },
         { db with books := updateFirst (bookKey author.id title)
                              (fun x => { x with abs_cover_url := cover })
                              db.books })) ∧
    (pyTruthy b.abs_cover_url = true →
      resolve_book db author title cover = (b, db)) := by
  constructor
  · intro hc hb
    rw [resolve_book_found hfound, if_pos (by rw [hc, hb]; rfl)]
  · intro hb
    rw [resolve_book_found hfound, if_neg (by rw [hb]; simp)]

/-- **C5 witness**: backfilling a concrete book's empty override cover,
and the stability of a concrete truthy one. -/
theorem C5_cover_backfill_witness :
    resolve_book
        ⟨[⟨1, "A", none, none, true⟩],
          [⟨1, "T", none, none, none, none, 1⟩], [], [], 2, 2, 1⟩
        ⟨1, "A", none, none, true⟩ "T" (some "http://x") =
      (⟨1, "T", none, none, none, some "http://x", 1⟩,
       ⟨[⟨1, "A", none, none, true⟩],
         updateFirst (bookKey 1 "T")
           (fun x => { x with abs_cover_url := some "http://x" })
           [⟨1, "T", none, none, none, none, 1⟩], [], [], 2, 2, 1⟩) :=
  (C5_cover_backfill
      ⟨[⟨1, "A", none, none, true⟩],
        [⟨1, "T", none, none, none, none, 1⟩], [], [], 2, 2, 1⟩
      ⟨1, "A", none, none, true⟩ "T" (some "http://x")
      ⟨1, "T", none, none, none, none, 1⟩ (by decide)).1 (by decide) (by decide)

theorem lowerStr_eq_empty {s : String} (h : lowerStr s = "") : s = "" := by
  have hd := congrArg String.data h
  rw [lowerStr_data] at hd
  have hnil : s.data = [] := by
    cases hs : s.data with
    | nil => rfl
    | cons c cs => rw [hs] at hd; simp at hd
  cases s
  simp_all

theorem ilikeChars_plain : ∀ (p s : List Char),
    (∀ c ∈ p, c ≠ '%' ∧ c ≠ '_') → ilikeChars p s = true →
    p.map Char.toLower = s.map Char.toLower
  | [], [], _, _ => rfl
  | [], e :: s, _, h => by
    rw [ilikeChars_nil] at h
    simp at h
  | c :: ps, [], hp, h => by
    rw [ilikeChars_lit_nil c ps (hp c (by simp)).1] at h
    exact absurd h (by simp)
  | c :: ps, d :: s, hp, h => by
    have h1 := (hp c (by simp)).1
    have h2 := (hp c (by simp)).2
    rw [ilikeChars_lit_cons c ps d s h1 h2] at h
    simp only [Bool.and_eq_true, beq_iff_eq] at h
    simp only [List.map_cons, List.cons.injEq]
    exact ⟨h.1, ilikeChars_plain ps s (fun x hx => hp x (by simp [hx])) h.2⟩

theorem ilikeMatch_plain {p s : String} (hp : plainName p = true)
    (h : ilikeMatch p s = true) : lowerStr p = lowerStr s := by
  have hmap := ilikeChars_plain p.data s.data ?_ h
  · unfold lowerStr
    rw [hmap]
  · intro c hc
    have hall := (List.all_eq_true.mp hp) c hc
    simp only [Bool.and_eq_true, Bool.not_eq_true', beq_eq_false_iff_ne,
      ne_eq] at hall
    exact hall

theorem attachedNames_mem {db : DB} {bookId : Nat} {m : String}
    (h : m ∈ attachedNames db bookId) :
    ∃ A, A ∈ db.narrators ∧ A.name = m ∧ A.id ∈ attachedIds db bookId := by
  unfold attachedNames attachedNarrators at h
  obtain ⟨A, hA, hname⟩ := List.mem_map.mp h
  obtain ⟨nid, hnid, hfind⟩ := List.mem_filterMap.mp hA
  refine ⟨A, List.mem_of_find?_eq_some hfind, hname, ?_⟩
  have hid := List.find?_some hfind
  simp only [beq_iff_eq] at hid
  rw [hid]
  exact hnid

theorem resolve_narrators_single (db : DB) (bk : Book) (m : String) :
    resolve_narrators db bk [m] =
      if pyStrip m == "" || (attachedNames db bk.id).contains (pyStrip m) then
        db
      else
        match db.narrators.find? (fun n => ilikeMatch (pyStrip m) n.name) with
        | some nr =>
          if (attachedIds db bk.id).contains nr.id then db
          else { db with bookNarrators := db.bookNarrators ++ [⟨bk.id, nr.id⟩] }
        | none =>
          { db with
             narrators := db.narrators ++ [⟨db.nextNarratorId, pyStrip m⟩],
             nextNarratorId := db.nextNarratorId + 1,
             bookNarrators := db.bookNarrators ++
               [⟨bk.id, db.nextNarratorId⟩] } := rfl

theorem attachedIds_append_assoc (db : DB) (bid : Nat) (nid : Nat)
    (narrs : List Narrator) (nn : Nat) :
    attachedIds
      { db with narrators := narrs, nextNarratorId := nn,
                bookNarrators := db.bookNarrators ++ [⟨bid, nid⟩] } bid =
      attachedIds db bid ++ [nid] := by
  unfold attachedIds
  simp

theorem attachedIds_irrelevant (db : DB) (bid : Nat)
    (narrs : List Narrator) (nn : Nat) :
    attachedIds { db with narrators := narrs, nextNarratorId := nn } bid =
      attachedIds db bid := rfl

/-- **C2 counterexample**: with wildcard characters the claim fails.
`"P%"` and `"p%"` differ only in letter case; the store satisfies the
case-insensitive narrator-name uniqueness invariant and has narrators
`Peter` (id 1) and `P%` (id 2), with `P%` attached to the book.
Resolving `"P%"` is a no-op (exact match in the attached set), but
resolving the case variant `"p%"` runs the ILIKE lookup, whose first
match is the unrelated narrator `Peter`, and attaches it: the two case
variants do not resolve to the same global Narrator. -/
theorem C2_wildcard_counterexample :
    lowerStr "P%" = lowerStr "p%" ∧
    narratorsCIUnique
      ⟨[], [⟨1, "T", none, none, none, none, 1⟩],
        [⟨1, "Peter"⟩, ⟨2, "P%"⟩], [⟨1, 2⟩], 1, 2, 3⟩ ∧
    resolve_narrators
        ⟨[], [⟨1, "T", none, none, none, none, 1⟩],
          [⟨1, "Peter"⟩, ⟨2, "P%"⟩], [⟨1, 2⟩], 1, 2, 3⟩
        ⟨1, "T", none, none, none, none, 1⟩ ["P%"] =
      ⟨[], [⟨1, "T", none, none, none, none, 1⟩],
        [⟨1, "Peter"⟩, ⟨2, "P%"⟩], [⟨1, 2⟩], 1, 2, 3⟩ ∧
    (resolve_narrators
        (resolve_narrators
          ⟨[], [⟨1, "T", none, none, none, none, 1⟩],
            [⟨1, "Peter"⟩, ⟨2, "P%"⟩], [⟨1, 2⟩], 1, 2, 3⟩
          ⟨1, "T", none, none, none, none, 1⟩ ["P%"])
        ⟨1, "T", none, none, none, none, 1⟩ ["p%"]).bookNarrators =
      [⟨1, 2⟩, ⟨1, 1⟩] := by
  refine ⟨by decide, ?_, by decide, by decide⟩
  unfold narratorsCIUnique
  decide

/-- **C2 (amended)**: names that differ only in letter case resolve
identically.  After resolving author name `n1`, resolving `n2` (same name
up to case) yields the same `Author` row and leaves the store unchanged;
a resolved author is either reused from the store or created with
`monitored=true`, no external id and no image; two case-variant titles
under the same author yield the same `Book` (same id, no extra row) —
all for arbitrary names.  Attaching a narrator name, then its case
variant, to a book changes nothing on the second call, given the
data-model invariant that narrator names are globally unique up to case
and provided the narrator name contains no SQL LIKE wildcard character
(`%`/`_`): without that proviso the claim is false, see the
counterexample above. -/
theorem C2_case_insensitive_resolution (db : DB) (n1 n2 t1 t2 : String)
    (hn : lowerStr n1 = lowerStr n2) (ht : lowerStr t1 = lowerStr t2) :
    ((resolve_author (resolve_author db n1).2 n2).1 = (resolve_author db n1).1 ∧
     (resolve_author (resolve_author db n1).2 n2).2 = (resolve_author db n1).2) ∧
    ((resolve_author db n1).1 ∈ db.authors ∧ (resolve_author db n1).2 = db ∨
     ((resolve_author db n1).1.name = n1 ∧
      (resolve_author db n1).1.monitored = true ∧
      (resolve_author db n1).1.ol_id = none ∧
      (resolve_author db n1).1.image_url = none ∧
      (resolve_author db n1).2.authors =
        db.authors ++ [(resolve_author db n1).1])) ∧
    (∀ (a : Author) (c1 c2 : Option String),
      (resolve_book (resolve_book db a t1 c1).2 a t2 c2).1.id =
        (resolve_book db a t1 c1).1.id ∧
      (resolve_book (resolve_book db a t1 c1).2 a t2 c2).2.books.length =
        (resolve_book db a t1 c1).2.books.length) ∧
    (∀ (bk : Book) (m1 m2 : String),
      lowerStr (pyStrip m1) = lowerStr (pyStrip m2) →
      narratorsCIUnique db →
      plainName (pyStrip m2) = true →
      resolve_narrators (resolve_narrators db bk [m1]) bk [m2] =
        resolve_narrators db bk [m1]) := by
  have hpredA : ∀ x : Author, ilikeMatch n2 x.name = ilikeMatch n1 x.name :=
    fun x => ilikeMatch_congr hn.symm x.name
  refine ⟨?_, ?_, ?_, ?_⟩
  · cases hf : db.authors.find? (fun x => ilikeMatch n1 x.name) with
    | some a =>
      rw [resolve_author_found hf]
      have hf2 : db.authors.find? (fun x => ilikeMatch n2 x.name) = some a := by
        rw [find?_congrP hpredA, hf]
      rw [resolve_author_found hf2]
      exact ⟨rfl, rfl⟩
    | none =>
      rw [resolve_author_create hf]
      have hf2 : (db.authors ++
          [(⟨db.nextAuthorId, n1, none, none, true⟩ : Author)]).find?
            (fun x => ilikeMatch n2 x.name) =
          some (⟨db.nextAuthorId, n1, none, none, true⟩ : Author) := by
        rw [find?_congrP hpredA, find?_append_none _ hf]
        exact List.find?_cons_of_pos _ (ilikeMatch_self n1)
      rw [resolve_author_found hf2]
      exact ⟨rfl, rfl⟩
  · cases hf : db.authors.find? (fun x => ilikeMatch n1 x.name) with
    | some a =>
      left
      rw [resolve_author_found hf]
      exact ⟨List.mem_of_find?_eq_some hf, rfl⟩
    | none =>
      right
      rw [resolve_author_create hf]
      exact ⟨rfl, rfl, rfl, rfl, rfl⟩
  · intro a c1 c2
    have hpredB : ∀ x : Book, bookKey a.id t2 x = bookKey a.id t1 x := by
      intro x
      unfold bookKey
      rw [ilikeMatch_congr ht.symm x.title]
    cases hf : db.books.find? (bookKey a.id t1) with
    | some b =>
      rw [resolve_book_found hf]
      by_cases hcond : (pyTruthy c1 && !pyTruthy b.abs_cover_url) = true
      · rw [if_pos hcond]
        have hf2 : (updateFirst (bookKey a.id t1)
              (fun x => { x with abs_cover_url := c1 }) db.books).find?
                (bookKey a.id t2) =
            some { b with abs_cover_url := c1 } := by
          rw [find?_congrP hpredB]
          exact find?_updateFirst_self (fun x => rfl) hf
        rw [resolve_book_found hf2]
        have hfalse : ¬(pyTruthy c2 &&
            !pyTruthy ({ b with abs_cover_url := c1 } : Book).abs_cover_url) =
              true := by
          simp only [Bool.and_eq_true] at hcond
          simp [hcond.1]
        rw [if_neg hfalse]
        exact ⟨rfl, by simp [updateFirst_length]⟩
      · rw [if_neg hcond]
        have hf2 : db.books.find? (bookKey a.id t2) = some b := by
          rw [find?_congrP hpredB, hf]
        rw [resolve_book_found hf2]
        by_cases hcond2 : (pyTruthy c2 && !pyTruthy b.abs_cover_url) = true
        · rw [if_pos hcond2]
          exact ⟨rfl, by simp [updateFirst_length]⟩
        · rw [if_neg hcond2]
          exact ⟨rfl, rfl⟩
    | none =>
      rw [resolve_book_create hf]
      have hf2 : (db.books ++
          [(⟨db.nextBookId, t1, none, none, none, c1, a.id⟩ : Book)]).find?
            (bookKey a.id t2) =
          some (⟨db.nextBookId, t1, none, none, none, c1, a.id⟩ : Book) := by
        rw [find?_congrP hpredB, find?_append_none _ hf]
        refine List.find?_cons_of_pos _ ?_
        unfold bookKey
        simp [ilikeMatch_self]
      rw [resolve_book_found hf2]
      by_cases hcond2 : (pyTruthy c2 &&
          !pyTruthy ((⟨db.nextBookId, t1, none, none, none, c1, a.id⟩ :
            Book)).abs_cover_url) = true
      · rw [if_pos hcond2]
        exact ⟨rfl, by simp [updateFirst_length]⟩
      · rw [if_neg hcond2]
        exact ⟨rfl, rfl⟩
  · intro bk m1 m2 hm hciu hplain
    by_cases he : pyStrip m1 = ""
    · have he2 : pyStrip m2 = "" :=
        lowerStr_eq_empty (by rw [← hm, he]; rfl)
      have hcall1 : resolve_narrators db bk [m1] = db := by
        rw [resolve_narrators_single db bk m1, if_pos (by simp [he])]
      have hcall2 : resolve_narrators db bk [m2] = db := by
        rw [resolve_narrators_single db bk m2, if_pos (by simp [he2])]
      rw [hcall1, hcall2]
    · have he2 : ¬pyStrip m2 = "" := by
        intro hx
        exact he (lowerStr_eq_empty (by rw [hm, hx]; rfl))
      have hpredN : ∀ x : Narrator,
          ilikeMatch (pyStrip m2) x.name = ilikeMatch (pyStrip m1) x.name :=
        fun x => ilikeMatch_congr hm.symm x.name
      by_cases hatt : pyStrip m1 ∈ attachedNames db bk.id
      · have hcall1 : resolve_narrators db bk [m1] = db := by
          rw [resolve_narrators_single db bk m1, if_pos (by simp [hatt])]
        have hcall2 : resolve_narrators db bk [m2] = db := by
          rw [resolve_narrators_single db bk m2]
          by_cases hatt2 : pyStrip m2 ∈ attachedNames db bk.id
          · rw [if_pos (by simp [hatt2])]
          · rw [if_neg (by simp [he2, hatt2])]
            obtain ⟨A, hAmem, hAname, hAid⟩ := attachedNames_mem hatt
            have hAmatch : ilikeMatch (pyStrip m2) A.name = true :=
              ilikeMatch_of_lower_eq (by rw [hAname, ← hm])
            have hsome : (db.narrators.find?
                (fun n => ilikeMatch (pyStrip m2) n.name)).isSome := by
              rw [List.find?_isSome]
              exact ⟨A, hAmem, hAmatch⟩
            obtain ⟨M, hM⟩ := Option.isSome_iff_exists.mp hsome
            simp only [hM]
            have hpm := List.find?_some hM
            simp only at hpm
            have hlow : lowerStr (pyStrip m2) = lowerStr M.name :=
              ilikeMatch_plain hplain hpm
            have hMA : M = A := by
              refine hciu M (List.mem_of_find?_eq_some hM) A hAmem ?_
              rw [← hlow, hAname, ← hm]
            rw [if_pos (by rw [hMA]; simpa using hAid)]
        rw [hcall1, hcall2]
      · cases hf : db.narrators.find?
            (fun n => ilikeMatch (pyStrip m1) n.name) with
        | some N =>
          by_cases hc : N.id ∈ attachedIds db bk.id
          · have hcall1 : resolve_narrators db bk [m1] = db := by
              rw [resolve_narrators_single db bk m1,
                  if_neg (by simp [he, hatt])]
              simp only [hf]
              rw [if_pos (by simpa using hc)]
            have hcall2 : resolve_narrators db bk [m2] = db := by
              rw [resolve_narrators_single db bk m2]
              by_cases hatt2 : pyStrip m2 ∈ attachedNames db bk.id
              · rw [if_pos (by simp [hatt2])]
              · rw [if_neg (by simp [he2, hatt2])]
                have hf2 : db.narrators.find?
                    (fun n => ilikeMatch (pyStrip m2) n.name) = some N := by
                  rw [find?_congrP hpredN, hf]
                simp only [hf2]
                rw [if_pos (by simpa using hc)]
            rw [hcall1, hcall2]
          · have hcall1 : resolve_narrators db bk [m1] =
                { db with bookNarrators :=
                    db.bookNarrators ++ [⟨bk.id, N.id⟩] } := by
              rw [resolve_narrators_single db bk m1,
                  if_neg (by simp [he, hatt])]
              simp only [hf]
              rw [if_neg (by simpa using hc)]
            have hids : attachedIds
                { db with bookNarrators :=
                    db.bookNarrators ++ [⟨bk.id, N.id⟩] } bk.id =
                attachedIds db bk.id ++ [N.id] := by
              unfold attachedIds
              simp
            have hcall2 : resolve_narrators
                { db with bookNarrators :=
                    db.bookNarrators ++ [⟨bk.id, N.id⟩] } bk [m2] =
                { db with bookNarrators :=
                    db.bookNarrators ++ [⟨bk.id, N.id⟩] } := by
              rw [resolve_narrators_single _ bk m2]
              by_cases hatt2 : pyStrip m2 ∈ attachedNames
                  { db with bookNarrators :=
                      db.bookNarrators ++ [⟨bk.id, N.id⟩] } bk.id
              · rw [if_pos (by simp [hatt2])]
              · rw [if_neg (by simp [he2, hatt2])]
                have hf2 : ({ db with bookNarrators :=
                      db.bookNarrators ++ [⟨bk.id, N.id⟩] } : DB).narrators.find?
                    (fun n => ilikeMatch (pyStrip m2) n.name) = some N := by
                  show db.narrators.find? _ = some N
                  rw [find?_congrP hpredN, hf]
                simp only [hf2]
                rw [if_pos (by rw [hids]; simp)]
            rw [hcall1, hcall2]
        | none =>
          have hcall1 : resolve_narrators db bk [m1] =
              { db with
                 narrators := db.narrators ++ [⟨db.nextNarratorId, pyStrip m1⟩],
                 nextNarratorId := db.nextNarratorId + 1,
                 bookNarrators := db.bookNarrators ++
                   [⟨bk.id, db.nextNarratorId⟩] } := by
            rw [resolve_narrators_single db bk m1,
                if_neg (by simp [he, hatt])]
            simp only [hf]
          have hids : attachedIds
              { db with
                 narrators := db.narrators ++ [⟨db.nextNarratorId, pyStrip m1⟩],
                 nextNarratorId := db.nextNarratorId + 1,
                 bookNarrators := db.bookNarrators ++
                   [⟨bk.id, db.nextNarratorId⟩] } bk.id =
              attachedIds db bk.id ++ [db.nextNarratorId] := by
            unfold attachedIds
            simp
          have hcall2 : resolve_narrators
              { db with
                 narrators := db.narrators ++ [⟨db.nextNarratorId, pyStrip m1⟩],
                 nextNarratorId := db.nextNarratorId + 1,
                 bookNarrators := db.bookNarrators ++
                   [⟨bk.id, db.nextNarratorId⟩] } bk [m2] =
              { db with
                 narrators := db.narrators ++ [⟨db.nextNarratorId, pyStrip m1⟩],
                 nextNarratorId := db.nextNarratorId + 1,
                 bookNarrators := db.bookNarrators ++
                   [⟨bk.id, db.nextNarratorId⟩] } := by
            rw [resolve_narrators_single _ bk m2]
            by_cases hatt2 : pyStrip m2 ∈ attachedNames
                { db with
                   narrators := db.narrators ++
                     [⟨db.nextNarratorId, pyStrip m1⟩],
                   nextNarratorId := db.nextNarratorId + 1,
                   bookNarrators := db.bookNarrators ++
                     [⟨bk.id, db.nextNarratorId⟩] } bk.id
            · rw [if_pos (by simp [hatt2])]
            · rw [if_neg (by simp [he2, hatt2])]
              have hf2 : ({ db with
                   narrators := db.narrators ++
                     [⟨db.nextNarratorId, pyStrip m1⟩],
                   nextNarratorId := db.nextNarratorId + 1,
                   bookNarrators := db.bookNarrators ++
                     [⟨bk.id, db.nextNarratorId⟩] } : DB).narrators.find?
                  (fun n => ilikeMatch (pyStrip m2) n.name) =
                  some ⟨db.nextNarratorId, pyStrip m1⟩ := by
                show (db.narrators ++
                    [(⟨db.nextNarratorId, pyStrip m1⟩ : Narrator)]).find? _ =
                  some (⟨db.nextNarratorId, pyStrip m1⟩ : Narrator)
                rw [find?_congrP hpredN, find?_append_none _ hf]
                exact List.find?_cons_of_pos _ (ilikeMatch_self (pyStrip m1))
              simp only [hf2]
              rw [if_pos (by rw [hids]; simp)]
          rw [hcall1, hcall2]

/-- **C2 witness**: concrete case variants — `"PAT LEE"` after `"Pat Lee"`
attaches nothing new to the book. -/
theorem C2_case_insensitive_resolution_witness :
    resolve_narrators
        (resolve_narrators DB.empty ⟨1, "T", none, none, none, none, 1⟩
          ["Pat Lee"])
        ⟨1, "T", none, none, none, none, 1⟩ ["PAT LEE"] =
      resolve_narrators DB.empty ⟨1, "T", none, none, none, none, 1⟩
        ["Pat Lee"] :=
  (C2_case_insensitive_resolution DB.empty "Jane" "JANE" "Dune" "DUNE"
      (by decide) (by decide)).2.2.2
    ⟨1, "T", none, none, none, none, 1⟩ "Pat Lee" "PAT LEE" (by decide)
    (by simp [narratorsCIUnique, DB.empty]) (by decide)

theorem go_cons (attached : List String) (bid : Nat) (db : DB) (m : String)
    (rest : List String) :
    resolve_narrators_go attached bid db (m :: rest) =
      if pyStrip m == "" || attached.contains (pyStrip m) then
        resolve_narrators_go attached bid db rest
      else
        match db.narrators.find? (fun n => ilikeMatch (pyStrip m) n.name) with
        | some nr =>
          if (attachedIds db bid).contains nr.id then
            resolve_narrators_go attached bid db rest
          else
            resolve_narrators_go attached bid
              { db with bookNarrators := db.bookNarrators ++ [⟨bid, nr.id⟩] }
              rest
        | none =>
          resolve_narrators_go attached bid
            { db with
               narrators := db.narrators ++ [⟨db.nextNarratorId, pyStrip m⟩],
               nextNarratorId := db.nextNarratorId + 1,
               bookNarrators := db.bookNarrators ++
                 [⟨bid, db.nextNarratorId⟩] }
            rest := rfl

theorem go_grows (attached : List String) (bid : Nat) :
    ∀ (names : List String) (db : DB),
      db.narrators <+: (resolve_narrators_go attached bid db names).narrators ∧
      db.bookNarrators <+:
        (resolve_narrators_go attached bid db names).bookNarrators := by
  intro names
  induction names with
  | nil => exact fun db => ⟨List.prefix_refl _, List.prefix_refl _⟩
  | cons m rest ih =>
    intro db
    rw [go_cons]
    by_cases h1 : (pyStrip m == "" || attached.contains (pyStrip m)) = true
    · rw [if_pos h1]
      exact ih db
    · rw [if_neg h1]
      cases hf : db.narrators.find? (fun n => ilikeMatch (pyStrip m) n.name) with
      | some nr =>
        simp only [hf]
        by_cases h2 : ((attachedIds db bid).contains nr.id) = true
        · rw [if_pos h2]
          exact ih db
        · rw [if_neg h2]
          refine ⟨(ih { db with bookNarrators :=
              db.bookNarrators ++ [⟨bid, nr.id⟩] }).1, ?_⟩
          exact List.IsPrefix.trans (List.prefix_append _ _)
            (ih { db with bookNarrators :=
              db.bookNarrators ++ [⟨bid, nr.id⟩] }).2
      | none =>
        simp only [hf]
        refine ⟨?_, ?_⟩
        · exact List.IsPrefix.trans (List.prefix_append _ _)
            (ih { db with
               narrators := db.narrators ++ [⟨db.nextNarratorId, pyStrip m⟩],
               nextNarratorId := db.nextNarratorId + 1,
               bookNarrators := db.bookNarrators ++
                 [⟨bid, db.nextNarratorId⟩] }).1
        · exact List.IsPrefix.trans (List.prefix_append _ _)
            (ih { db with
               narrators := db.narrators ++ [⟨db.nextNarratorId, pyStrip m⟩],
               nextNarratorId := db.nextNarratorId + 1,
               bookNarrators := db.bookNarrators ++
                 [⟨bid, db.nextNarratorId⟩] }).2

theorem attachedIds_mono {db db' : DB} (bid : Nat)
    (h : db.bookNarrators <+: db'.bookNarrators) :
    ∀ x ∈ attachedIds db bid, x ∈ attachedIds db' bid := by
  obtain ⟨t, ht⟩ := h
  intro x hx
  unfold attachedIds at hx ⊢
  rw [← ht, List.filter_append, List.map_append]
  exact List.mem_append_left _ hx

theorem attached_witness_mono {db db' : DB} {bid : Nat} {Q : Narrator → Prop}
    (hn : db.narrators <+: db'.narrators)
    (ha : db.bookNarrators <+: db'.bookNarrators)
    (h : ∃ A ∈ db.narrators, Q A ∧ A.id ∈ attachedIds db bid) :
    ∃ A ∈ db'.narrators, Q A ∧ A.id ∈ attachedIds db' bid := by
  obtain ⟨A, hA, hQ, hid⟩ := h
  exact ⟨A, hn.subset hA, hQ, attachedIds_mono bid ha _ hid⟩

theorem go_covers (attached : List String) (bid : Nat) :
    ∀ (names : List String) (db : DB),
      (∀ s ∈ attached,
        ∃ A ∈ db.narrators, A.name = s ∧ A.id ∈ attachedIds db bid) →
      (∀ m ∈ names, plainName (pyStrip m) = true) →
      ∀ m ∈ names, pyStrip m ≠ "" →
        ∃ A ∈ (resolve_narrators_go attached bid db names).narrators,
          lowerStr A.name = lowerStr (pyStrip m) ∧
          A.id ∈ attachedIds (resolve_narrators_go attached bid db names) bid := by
  intro names
  induction names with
  | nil =>
    intro db _ _ m hm
    simp at hm
  | cons m0 rest ih =>
    intro db hatt hplain m hm hme
    have hattlift : ∀ (db1 : DB), db.narrators <+: db1.narrators →
        db.bookNarrators <+: db1.bookNarrators →
        ∀ s ∈ attached,
          ∃ A ∈ db1.narrators, A.name = s ∧ A.id ∈ attachedIds db1 bid :=
      fun db1 hn ha s hs => attached_witness_mono hn ha (hatt s hs)
    rw [go_cons]
    by_cases h1 : (pyStrip m0 == "" || attached.contains (pyStrip m0)) = true
    · rw [if_pos h1]
      rcases List.mem_cons.mp hm with hm0 | hmr
      · subst hm0
        rcases (by simpa using h1 :
            pyStrip m = "" ∨ pyStrip m ∈ attached) with he | hin
        · exact absurd he hme
        · obtain ⟨A, hA, hAname, hAid⟩ := hatt _ hin
          exact attached_witness_mono (go_grows attached bid rest db).1
            (go_grows attached bid rest db).2
            ⟨A, hA, by rw [hAname], hAid⟩
      · exact ih db hatt (fun x hx => hplain x (by simp [hx])) m hmr hme
    · rw [if_neg h1]
      cases hf : db.narrators.find?
          (fun n => ilikeMatch (pyStrip m0) n.name) with
      | some nr =>
        simp only [hf]
        by_cases h2 : ((attachedIds db bid).contains nr.id) = true
        · rw [if_pos h2]
          rcases List.mem_cons.mp hm with hm0 | hmr
          · subst hm0
            have hpm := List.find?_some hf
            simp only at hpm
            have hlow := ilikeMatch_plain (hplain m (by simp)) hpm
            exact attached_witness_mono (go_grows attached bid rest db).1
              (go_grows attached bid rest db).2
              ⟨nr, List.mem_of_find?_eq_some hf, hlow.symm, by simpa using h2⟩
          · exact ih db hatt (fun x hx => hplain x (by simp [hx])) m hmr hme
        · rw [if_neg h2]
          rcases List.mem_cons.mp hm with hm0 | hmr
          · subst hm0
            have hpm := List.find?_some hf
            simp only at hpm
            have hlow := ilikeMatch_plain (hplain m (by simp)) hpm
            refine attached_witness_mono (go_grows attached bid rest _).1
              (go_grows attached bid rest _).2
              ⟨nr, List.mem_of_find?_eq_some hf, hlow.symm, ?_⟩
            unfold attachedIds
            simp
          · refine ih { db with bookNarrators :=
                db.bookNarrators ++ [⟨bid, nr.id⟩] }
              (hattlift { db with bookNarrators :=
                  db.bookNarrators ++ [⟨bid, nr.id⟩] }
                (List.prefix_refl _) (List.prefix_append _ _))
              (fun x hx => hplain x (by simp [hx])) m hmr hme
      | none =>
        simp only [hf]
        rcases List.mem_cons.mp hm with hm0 | hmr
        · subst hm0
          refine attached_witness_mono (go_grows attached bid rest _).1
            (go_grows attached bid rest _).2
            ⟨⟨db.nextNarratorId, pyStrip m⟩, by simp, rfl, ?_⟩
          unfold attachedIds
          simp
        · refine ih { db with
               narrators := db.narrators ++ [⟨db.nextNarratorId, pyStrip m0⟩],
               nextNarratorId := db.nextNarratorId + 1,
               bookNarrators := db.bookNarrators ++
                 [⟨bid, db.nextNarratorId⟩] }
            (hattlift { db with
                 narrators := db.narrators ++ [⟨db.nextNarratorId, pyStrip m0⟩],
                 nextNarratorId := db.nextNarratorId + 1,
                 bookNarrators := db.bookNarrators ++
                   [⟨bid, db.nextNarratorId⟩] }
              (List.prefix_append _ _) (List.prefix_append _ _))
            (fun x hx => hplain x (by simp [hx])) m hmr hme

theorem go_noop (attached : List String) (bid : Nat) (db : DB)
    (hciu : narratorsCIUnique db) :
    ∀ names : List String,
      (∀ m ∈ names, plainName (pyStrip m) = true) →
      (∀ m ∈ names, pyStrip m = "" ∨
        ∃ A ∈ db.narrators, lowerStr A.name = lowerStr (pyStrip m) ∧
          A.id ∈ attachedIds db bid) →
      resolve_narrators_go attached bid db names = db := by
  intro names
  induction names with
  | nil => intro _ _; rfl
  | cons m0 rest ih =>
    intro hplain hcov
    have ihr := ih (fun x hx => hplain x (by simp [hx]))
      (fun x hx => hcov x (by simp [hx]))
    rw [go_cons]
    by_cases h1 : (pyStrip m0 == "" || attached.contains (pyStrip m0)) = true
    · rw [if_pos h1]
      exact ihr
    · rw [if_neg h1]
      have hm0 : ¬pyStrip m0 = "" := by
        intro hx
        exact h1 (by simp [hx])
      rcases hcov m0 (by simp) with he | ⟨A, hA, hlow, hid⟩
      · exact absurd he hm0
      · have hsome : (db.narrators.find?
            (fun n => ilikeMatch (pyStrip m0) n.name)).isSome := by
          rw [List.find?_isSome]
          exact ⟨A, hA, ilikeMatch_of_lower_eq hlow.symm⟩
        obtain ⟨M, hM⟩ := Option.isSome_iff_exists.mp hsome
        simp only [hM]
        have hpm := List.find?_some hM
        simp only at hpm
        have hlowM := ilikeMatch_plain (hplain m0 (by simp)) hpm
        have hMA : M = A :=
          hciu M (List.mem_of_find?_eq_some hM) A hA (hlowM.symm.trans hlow.symm)
        rw [if_pos (by rw [hMA]; simpa using hid)]
        exact ihr

/-- **C6 counterexample**: with wildcard characters the claim fails.
On a store whose only narrator is `Peter` (satisfying the
case-insensitive uniqueness invariant) with nothing attached, importing
the narrator name `"P%"` does not look up or create a narrator
case-insensitively named `"P%"`: the ILIKE lookup's first match is
`Peter`, which gets attached instead, and afterwards no narrator
case-insensitively equal to `"P%"` exists at all. -/
theorem C6_wildcard_counterexample :
    narratorsCIUnique
      ⟨[], [⟨1, "T", none, none, none, none, 1⟩], [⟨1, "Peter"⟩],
        [], 1, 2, 2⟩ ∧
    (resolve_narrators
        ⟨[], [⟨1, "T", none, none, none, none, 1⟩], [⟨1, "Peter"⟩],
          [], 1, 2, 2⟩
        ⟨1, "T", none, none, none, none, 1⟩ ["P%"]).narrators =
      [⟨1, "Peter"⟩] ∧
    (resolve_narrators
        ⟨[], [⟨1, "T", none, none, none, none, 1⟩], [⟨1, "Peter"⟩],
          [], 1, 2, 2⟩
        ⟨1, "T", none, none, none, none, 1⟩ ["P%"]).bookNarrators =
      [⟨1, 1⟩] ∧
    ((resolve_narrators
        ⟨[], [⟨1, "T", none, none, none, none, 1⟩], [⟨1, "Peter"⟩],
          [], 1, 2, 2⟩
        ⟨1, "T", none, none, none, none, 1⟩ ["P%"]).narrators.all
      (fun n => !(lowerStr n.name == lowerStr "P%"))) = true := by
  refine ⟨?_, by decide, by decide, by decide⟩
  unfold narratorsCIUnique
  decide

/-- **C6 (amended)**: narrator resolution is monotone and complete: it
never removes a book-narrator association (and never removes a narrator
row); after the call every nonempty stripped incoming name has a
case-insensitively matching global narrator attached to the book; and
when every incoming name is already represented case-insensitively among
the book's attached narrators, the call changes nothing — under the
data-model invariant that narrator names are globally unique up to case,
and provided the narrator names contain no SQL LIKE wildcard character
(`%`/`_`): without that proviso the claim is false, see the
counterexample above. -/
theorem C6_narrator_attachment (db : DB) (bk : Book) (names : List String)
    (hciu : narratorsCIUnique db)
    (hplain : ∀ m ∈ names, plainName (pyStrip m) = true) :
    (db.bookNarrators <+: (resolve_narrators db bk names).bookNarrators ∧
     db.narrators <+: (resolve_narrators db bk names).narrators) ∧
    (∀ m ∈ names, pyStrip m ≠ "" →
      ∃ A ∈ (resolve_narrators db bk names).narrators,
        lowerStr A.name = lowerStr (pyStrip m) ∧
        A.id ∈ attachedIds (resolve_narrators db bk names) bk.id) ∧
    ((∀ m ∈ names, pyStrip m = "" ∨
        ∃ A ∈ db.narrators, lowerStr A.name = lowerStr (pyStrip m) ∧
          A.id ∈ attachedIds db bk.id) →
      resolve_narrators db bk names = db) := by
  refine ⟨⟨(go_grows _ bk.id names db).2, (go_grows _ bk.id names db).1⟩,
    ?_, ?_⟩
  · refine go_covers (attachedNames db bk.id) bk.id names db ?_ hplain
    intro s hs
    obtain ⟨A, hA, hAname, hAid⟩ := attachedNames_mem hs
    exact ⟨A, hA, hAname, hAid⟩
  · intro hcov
    exact go_noop (attachedNames db bk.id) bk.id db hciu names hplain hcov

/-- **C6 witness**: on a store where `"Pat Lee"` is already attached,
resolving the case variant `"PAT LEE"` changes nothing. -/
theorem C6_narrator_attachment_witness :
    resolve_narrators
        ⟨[], [⟨1, "T", none, none, none, none, 1⟩], [⟨1, "Pat Lee"⟩],
          [⟨1, 1⟩], 1, 2, 2⟩
        ⟨1, "T", none, none, none, none, 1⟩ ["PAT LEE"] =
      ⟨[], [⟨1, "T", none, none, none, none, 1⟩], [⟨1, "Pat Lee"⟩],
        [⟨1, 1⟩], 1, 2, 2⟩ :=
  (C6_narrator_attachment
      ⟨[], [⟨1, "T", none, none, none, none, 1⟩], [⟨1, "Pat Lee"⟩],
        [⟨1, 1⟩], 1, 2, 2⟩
      ⟨1, "T", none, none, none, none, 1⟩ ["PAT LEE"]
      (by intro n1 h1 n2 h2 _
          simp at h1 h2
          rw [h1, h2])
      (by intro m hm
          simp at hm
          rw [hm]
          decide)).2.2
    (by intro m hm
        simp at hm
        right
        refine ⟨⟨1, "Pat Lee"⟩, by simp, by rw [hm]; decide, by decide⟩)

/-! ### Evolution of the store under the live pipeline -/

theorem find?_updateFirst_general {α : Type} {p q : α → Bool} {f : α → α}
    {l : List α} {b : α} (hf : ∀ x, p (f x) = p x)
    (h : l.find? p = some b) :
    (updateFirst q f l).find? p = some b ∨
    (updateFirst q f l).find? p = some (f b) := by
  induction l with
  | nil => simp at h
  | cons x xs ih =>
    unfold updateFirst
    by_cases hq : q x = true
    · rw [if_pos hq]
      by_cases hp : p x = true
      · rw [List.find?_cons_of_pos _ hp] at h
        cases h
        right
        exact List.find?_cons_of_pos _ (by rw [hf, hp])
      · rw [List.find?_cons_of_neg _ (by simp [hp])] at h
        rw [List.find?_cons_of_neg _ (by simp [hf, hp])]
        exact Or.inl h
    · rw [if_neg hq]
      by_cases hp : p x = true
      · rw [List.find?_cons_of_pos _ hp] at h
        cases h
        left
        exact List.find?_cons_of_pos _ hp
      · rw [List.find?_cons_of_neg _ (by simp [hp])] at h
        rw [List.find?_cons_of_neg _ (by simp [hp])]
        exact ih h

theorem booksPreserve_refl (l : List Book) : BooksPreserve l l :=
  fun _ _ b h => ⟨b, h, rfl, Or.inl rfl⟩

theorem booksPreserve_trans {l1 l2 l3 : List Book}
    (h12 : BooksPreserve l1 l2) (h23 : BooksPreserve l2 l3) :
    BooksPreserve l1 l3 := by
  intro aid t b h
  obtain ⟨b2, hf2, hid2, hc2⟩ := h12 aid t b h
  obtain ⟨b3, hf3, hid3, hc3⟩ := h23 aid t b2 hf2
  refine ⟨b3, hf3, hid3.trans hid2, ?_⟩
  rcases hc3 with h3 | h3
  · rcases hc2 with h2 | h2
    · exact Or.inl (h3.trans h2)
    · exact Or.inr (h3 ▸ h2)
  · exact Or.inr h3

theorem booksPreserve_append (l ext : List Book) :
    BooksPreserve l (l ++ ext) :=
  fun _ _ b h => ⟨b, find?_append_some ext h, rfl, Or.inl rfl⟩

theorem booksPreserve_update {l : List Book} {q : Book → Bool}
    {cover : Option String} (hc : pyTruthy cover = true) :
    BooksPreserve l
      (updateFirst q (fun x => { x with abs_cover_url := cover }) l) := by
  intro aid t b h
  rcases @find?_updateFirst_general Book (bookKey aid t) q
      (fun x => { x with abs_cover_url := cover }) l b (fun x => rfl) h
    with h' | h'
  · exact ⟨b, h', rfl, Or.inl rfl⟩
  · exact ⟨_, h', rfl, Or.inr hc⟩

theorem attachedNames_mono {db db' : DB} (bid : Nat)
    (hn : db.narrators <+: db'.narrators)
    (ha : db.bookNarrators <+: db'.bookNarrators) :
    ∀ m ∈ attachedNames db bid, m ∈ attachedNames db' bid := by
  intro m hm
  unfold attachedNames attachedNarrators at hm ⊢
  obtain ⟨A, hA, hAname⟩ := List.mem_map.mp hm
  obtain ⟨nid, hnid, hfind⟩ := List.mem_filterMap.mp hA
  refine List.mem_map.mpr ⟨A, List.mem_filterMap.mpr
    ⟨nid, attachedIds_mono bid ha _ hnid, ?_⟩, hAname⟩
  obtain ⟨ext, hext⟩ := hn
  rw [← hext]
  exact find?_append_some ext hfind

theorem nameSettled_mono {db db' : DB} {bid : Nat} {nm : String}
    (hn : db.narrators <+: db'.narrators)
    (ha : db.bookNarrators <+: db'.bookNarrators)
    (h : NameSettled db bid nm) : NameSettled db' bid nm := by
  rcases h with he | hin | ⟨N, hf, hid⟩
  · exact Or.inl he
  · exact Or.inr (Or.inl (attachedNames_mono bid hn ha _ hin))
  · refine Or.inr (Or.inr ⟨N, ?_, attachedIds_mono bid ha _ hid⟩)
    obtain ⟨ext, hext⟩ := hn
    rw [← hext]
    exact find?_append_some ext hf

theorem dbStep_refl (db : DB) : DBStep db db :=
  ⟨⟨[], by simp⟩, List.prefix_refl _, List.prefix_refl _,
    booksPreserve_refl _⟩

theorem dbStep_trans {db1 db2 db3 : DB} (h12 : DBStep db1 db2)
    (h23 : DBStep db2 db3) : DBStep db1 db3 := by
  obtain ⟨⟨e1, he1⟩, hn1, ha1, hb1⟩ := h12
  obtain ⟨⟨e2, he2⟩, hn2, ha2, hb2⟩ := h23
  exact ⟨⟨e1 ++ e2, by rw [he2, he1, List.append_assoc]⟩, hn1.trans hn2,
    ha1.trans ha2, booksPreserve_trans hb1 hb2⟩

theorem resolve_author_frame (db : DB) (n : String) :
    (∃ ext, (resolve_author db n).2.authors = db.authors ++ ext) ∧
    (resolve_author db n).2.books = db.books ∧
    (resolve_author db n).2.narrators = db.narrators ∧
    (resolve_author db n).2.bookNarrators = db.bookNarrators := by
  cases hf : db.authors.find? (fun x => ilikeMatch n x.name) with
  | some a =>
    rw [resolve_author_found hf]
    exact ⟨⟨[], by simp⟩, rfl, rfl, rfl⟩
  | none =>
    rw [resolve_author_create hf]
    exact ⟨⟨_, rfl⟩, rfl, rfl, rfl⟩

theorem resolve_book_frame (db : DB) (a : Author) (t : String)
    (c : Option String) :
    (resolve_book db a t c).2.authors = db.authors ∧
    (resolve_book db a t c).2.narrators = db.narrators ∧
    (resolve_book db a t c).2.bookNarrators = db.bookNarrators ∧
    BooksPreserve db.books (resolve_book db a t c).2.books := by
  cases hf : db.books.find? (bookKey a.id t) with
  | some b =>
    rw [resolve_book_found hf]
    by_cases hcond : (pyTruthy c && !pyTruthy b.abs_cover_url) = true
    · rw [if_pos hcond]
      refine ⟨rfl, rfl, rfl, ?_⟩
      simp only [Bool.and_eq_true] at hcond
      exact booksPreserve_update hcond.1
    · rw [if_neg hcond]
      exact ⟨rfl, rfl, rfl, booksPreserve_refl _⟩
  | none =>
    rw [resolve_book_create hf]
    exact ⟨rfl, rfl, rfl, booksPreserve_append _ _⟩

theorem go_frame (attached : List String) (bid : Nat) :
    ∀ (names : List String) (db : DB),
      (resolve_narrators_go attached bid db names).authors = db.authors ∧
      (resolve_narrators_go attached bid db names).books = db.books := by
  intro names
  induction names with
  | nil => exact fun _ => ⟨rfl, rfl⟩
  | cons m rest ih =>
    intro db
    rw [go_cons]
    by_cases h1 : (pyStrip m == "" || attached.contains (pyStrip m)) = true
    · rw [if_pos h1]
      exact ih db
    · rw [if_neg h1]
      cases hf : db.narrators.find? (fun n => ilikeMatch (pyStrip m) n.name) with
      | some nr =>
        simp only [hf]
        by_cases h2 : ((attachedIds db bid).contains nr.id) = true
        · rw [if_pos h2]
          exact ih db
        · rw [if_neg h2]
          exact ih { db with bookNarrators :=
            db.bookNarrators ++ [⟨bid, nr.id⟩] }
      | none =>
        simp only [hf]
        exact ih { db with
          narrators := db.narrators ++ [⟨db.nextNarratorId, pyStrip m⟩],
          nextNarratorId := db.nextNarratorId + 1,
          bookNarrators := db.bookNarrators ++ [⟨bid, db.nextNarratorId⟩] }

theorem dbStep_resolve_author (db : DB) (n : String) :
    DBStep db (resolve_author db n).2 := by
  obtain ⟨he, hb, hnr, hbn⟩ := resolve_author_frame db n
  refine ⟨he, ?_, ?_, ?_⟩
  · rw [hnr]
  · rw [hbn]
  · rw [hb]
    exact booksPreserve_refl _

theorem dbStep_resolve_book (db : DB) (a : Author) (t : String)
    (c : Option String) : DBStep db (resolve_book db a t c).2 := by
  obtain ⟨ha, hnr, hbn, hbp⟩ := resolve_book_frame db a t c
  refine ⟨⟨[], by rw [ha]; simp⟩, ?_, ?_, hbp⟩
  · rw [hnr]
  · rw [hbn]

theorem dbStep_go (attached : List String) (bid : Nat)
    (names : List String) (db : DB) :
    DBStep db (resolve_narrators_go attached bid db names) := by
  refine ⟨⟨[], by rw [(go_frame attached bid names db).1]; simp⟩,
    (go_grows attached bid names db).1, (go_grows attached bid names db).2,
    ?_⟩
  rw [(go_frame attached bid names db).2]
  exact booksPreserve_refl _

theorem resolve_author_post (db : DB) (n : String) :
    (resolve_author db n).2.authors.find? (fun x => ilikeMatch n x.name) =
      some (resolve_author db n).1 := by
  cases hf : db.authors.find? (fun x => ilikeMatch n x.name) with
  | some a =>
    rw [resolve_author_found hf]
    exact hf
  | none =>
    rw [resolve_author_create hf]
    show (db.authors ++ [(⟨db.nextAuthorId, n, none, none, true⟩ : Author)]).find? _ = _
    rw [find?_append_none _ hf]
    exact List.find?_cons_of_pos _ (ilikeMatch_self n)

theorem resolve_book_post (db : DB) (a : Author) (t : String)
    (c : Option String) :
    (resolve_book db a t c).2.books.find? (bookKey a.id t) =
      some (resolve_book db a t c).1 ∧
    (pyTruthy c && !pyTruthy (resolve_book db a t c).1.abs_cover_url) =
      false := by
  cases hf : db.books.find? (bookKey a.id t) with
  | some b =>
    rw [resolve_book_found hf]
    by_cases hcond : (pyTruthy c && !pyTruthy b.abs_cover_url) = true
    · rw [if_pos hcond]
      simp only [Bool.and_eq_true] at hcond
      constructor
      · exact find?_updateFirst_self (fun x => rfl) hf
      · simp [hcond.1]
    · rw [if_neg hcond]
      exact ⟨hf, by simpa using hcond⟩
  | none =>
    rw [resolve_book_create hf]
    constructor
    · show (db.books ++
          [(⟨db.nextBookId, t, none, none, none, c, a.id⟩ : Book)]).find? _ = _
      rw [find?_append_none _ hf]
      refine List.find?_cons_of_pos _ ?_
      unfold bookKey
      simp [ilikeMatch_self]
    · cases hc : pyTruthy c <;> simp [hc]

theorem import_item_live_fst (db : DB) (i : NormalizedItem) (t a0 : String)
    (rest : List String) (ht : i.title = some t) (ha : i.authors = a0 :: rest)
    (hne : ¬t = "") :
    (import_item false db i).1 =
      (if i.narrators.isEmpty then
        (resolve_book (resolve_author db (pyStrip a0)).2
          (resolve_author db (pyStrip a0)).1 t i.abs_cover_url).2
      else
        resolve_narrators
          (resolve_book (resolve_author db (pyStrip a0)).2
            (resolve_author db (pyStrip a0)).1 t i.abs_cover_url).2
          (resolve_book (resolve_author db (pyStrip a0)).2
            (resolve_author db (pyStrip a0)).1 t i.abs_cover_url).1
          i.narrators) := by
  unfold import_item
  rw [ht, ha]
  simp [hne]

theorem go_settles (bid : Nat) (attached : List String) :
    ∀ (names : List String) (db : DB),
      (∀ s ∈ attached, s ∈ attachedNames db bid) →
      ∀ m ∈ names,
        NameSettled (resolve_narrators_go attached bid db names) bid
          (pyStrip m) := by
  intro names
  induction names with
  | nil =>
    intro db _ m hm
    simp at hm
  | cons m0 rest ih =>
    intro db hatt m hm
    rw [go_cons]
    have hpres : ∀ (db1 : DB), NameSettled db1 bid (pyStrip m) →
        NameSettled (resolve_narrators_go attached bid db1 rest) bid
          (pyStrip m) :=
      fun db1 hx => nameSettled_mono (go_grows attached bid rest db1).1
        (go_grows attached bid rest db1).2 hx
    have hattlift : ∀ (db1 : DB), db.narrators <+: db1.narrators →
        db.bookNarrators <+: db1.bookNarrators →
        ∀ s ∈ attached, s ∈ attachedNames db1 bid :=
      fun db1 hn ha s hs => attachedNames_mono bid hn ha s (hatt s hs)
    by_cases h1 : (pyStrip m0 == "" || attached.contains (pyStrip m0)) = true
    · rw [if_pos h1]
      rcases List.mem_cons.mp hm with heq | hmr
      · subst heq
        rcases (by simpa using h1 :
            pyStrip m = "" ∨ pyStrip m ∈ attached) with he | hin
        · exact hpres db (Or.inl he)
        · exact hpres db (Or.inr (Or.inl (hatt _ hin)))
      · exact ih db hatt m hmr
    · rw [if_neg h1]
      cases hf : db.narrators.find?
          (fun n => ilikeMatch (pyStrip m0) n.name) with
      | some nr =>
        simp only [hf]
        by_cases h2 : ((attachedIds db bid).contains nr.id) = true
        · rw [if_pos h2]
          rcases List.mem_cons.mp hm with heq | hmr
          · subst heq
            exact hpres db (Or.inr (Or.inr ⟨nr, hf, by simpa using h2⟩))
          · exact ih db hatt m hmr
        · rw [if_neg h2]
          rcases List.mem_cons.mp hm with heq | hmr
          · subst heq
            refine hpres { db with bookNarrators :=
                db.bookNarrators ++ [⟨bid, nr.id⟩] }
              (Or.inr (Or.inr ⟨nr, hf, ?_⟩))
            unfold attachedIds
            simp
          · exact ih { db with bookNarrators :=
                db.bookNarrators ++ [⟨bid, nr.id⟩] }
              (hattlift _ (List.prefix_refl _) (List.prefix_append _ _))
              m hmr
      | none =>
        simp only [hf]
        rcases List.mem_cons.mp hm with heq | hmr
        · subst heq
          refine hpres { db with
              narrators := db.narrators ++ [⟨db.nextNarratorId, pyStrip m⟩],
              nextNarratorId := db.nextNarratorId + 1,
              bookNarrators := db.bookNarrators ++
                [⟨bid, db.nextNarratorId⟩] }
            (Or.inr (Or.inr ⟨⟨db.nextNarratorId, pyStrip m⟩, ?_, ?_⟩))
          · show (db.narrators ++
                [(⟨db.nextNarratorId, pyStrip m⟩ : Narrator)]).find? _ = _
            rw [find?_append_none _ hf]
            exact List.find?_cons_of_pos _ (ilikeMatch_self (pyStrip m))
          · unfold attachedIds
            simp
        · exact ih { db with
              narrators := db.narrators ++ [⟨db.nextNarratorId, pyStrip m0⟩],
              nextNarratorId := db.nextNarratorId + 1,
              bookNarrators := db.bookNarrators ++
                [⟨bid, db.nextNarratorId⟩] }
            (hattlift _ (List.prefix_append _ _) (List.prefix_append _ _))
            m hmr

theorem go_noop_settled (bid : Nat) (db : DB) (attached : List String)
    (hcover : ∀ s ∈ attachedNames db bid, s ∈ attached) :
    ∀ names : List String,
      (∀ m ∈ names, NameSettled db bid (pyStrip m)) →
      resolve_narrators_go attached bid db names = db := by
  intro names
  induction names with
  | nil => intro _; rfl
  | cons m0 rest ih =>
    intro hset
    rw [go_cons]
    have ihr := ih (fun x hx => hset x (by simp [hx]))
    rcases hset m0 (by simp) with he | hin | ⟨N, hf, hid⟩
    · rw [if_pos (by simp [he])]
      exact ihr
    · rw [if_pos (by simp [hcover _ hin])]
      exact ihr
    · by_cases h1 : (pyStrip m0 == "" || attached.contains (pyStrip m0)) = true
      · rw [if_pos h1]
        exact ihr
      · rw [if_neg h1]
        simp only [hf]
        rw [if_pos (by simpa using hid)]
        exact ihr

theorem itemSettled_mono {db db' : DB} {i : NormalizedItem}
    (hstep : DBStep db db') (h : ItemSettled db i) : ItemSettled db' i := by
  obtain ⟨⟨ext, hext⟩, hn, ha, hb⟩ := hstep
  cases hti : i.title with
  | none => simp [ItemSettled, hti]
  | some t =>
    cases hai : i.authors with
    | nil => simp [ItemSettled, hti, hai]
    | cons a0 rest =>
      simp only [ItemSettled, hti, hai] at h ⊢
      rcases h with he | ⟨a, hfa, b, hfb, hcond, hnames⟩
      · exact Or.inl he
      right
      refine ⟨a, by rw [hext]; exact find?_append_some ext hfa, ?_⟩
      obtain ⟨b', hfb', hid, hcov⟩ := hb a.id t b hfb
      refine ⟨b', hfb', ?_, ?_⟩
      · rcases hcov with hc | hc
        · rw [hc]
          exact hcond
        · simp [hc]
      · intro m hm
        rw [hid]
        exact nameSettled_mono hn ha (hnames m hm)

theorem import_item_settles (db : DB) (i : NormalizedItem) :
    ItemSettled (import_item false db i).1 i := by
  cases hti : i.title with
  | none => simp [ItemSettled, hti]
  | some t =>
    cases hai : i.authors with
    | nil => simp [ItemSettled, hti, hai]
    | cons a0 rest =>
      by_cases hne : t = ""
      · simp [ItemSettled, hti, hai, hne]
      · rw [import_item_live_fst db i t a0 rest hti hai hne]
        simp only [ItemSettled, hti, hai]
        right
        have hfa := resolve_author_post db (pyStrip a0)
        have hfb := resolve_book_post (resolve_author db (pyStrip a0)).2
          (resolve_author db (pyStrip a0)).1 t i.abs_cover_url
        by_cases hemp : i.narrators.isEmpty
        · rw [if_pos hemp]
          refine ⟨(resolve_author db (pyStrip a0)).1, ?_,
            (resolve_book (resolve_author db (pyStrip a0)).2
              (resolve_author db (pyStrip a0)).1 t i.abs_cover_url).1,
            hfb.1, hfb.2, ?_⟩
          · rw [(resolve_book_frame (resolve_author db (pyStrip a0)).2
              (resolve_author db (pyStrip a0)).1 t i.abs_cover_url).1]
            exact hfa
          · intro m hm
            rw [List.isEmpty_iff] at hemp
            rw [hemp] at hm
            simp at hm
        · rw [if_neg hemp]
          refine ⟨(resolve_author db (pyStrip a0)).1, ?_, ?_⟩
          · rw [show (resolve_narrators
                (resolve_book (resolve_author db (pyStrip a0)).2
                  (resolve_author db (pyStrip a0)).1 t i.abs_cover_url).2
                (resolve_book (resolve_author db (pyStrip a0)).2
                  (resolve_author db (pyStrip a0)).1 t i.abs_cover_url).1
                i.narrators).authors =
              (resolve_book (resolve_author db (pyStrip a0)).2
                (resolve_author db (pyStrip a0)).1 t i.abs_cover_url).2.authors
              from (go_frame _ _ i.narrators _).1]
            rw [(resolve_book_frame (resolve_author db (pyStrip a0)).2
              (resolve_author db (pyStrip a0)).1 t i.abs_cover_url).1]
            exact hfa
          · refine ⟨(resolve_book (resolve_author db (pyStrip a0)).2
                (resolve_author db (pyStrip a0)).1 t i.abs_cover_url).1, ?_,
              hfb.2, ?_⟩
            · rw [show (resolve_narrators
                  (resolve_book (resolve_author db (pyStrip a0)).2
                    (resolve_author db (pyStrip a0)).1 t i.abs_cover_url).2
                  (resolve_book (resolve_author db (pyStrip a0)).2
                    (resolve_author db (pyStrip a0)).1 t i.abs_cover_url).1
                  i.narrators).books =
                (resolve_book (resolve_author db (pyStrip a0)).2
                  (resolve_author db (pyStrip a0)).1 t
                  i.abs_cover_url).2.books
                from (go_frame _ _ i.narrators _).2]
              exact hfb.1
            · intro m hm
              exact go_settles _ _ i.narrators _ (fun s hs => hs) m hm

theorem import_item_noop {db : DB} {i : NormalizedItem}
    (h : ItemSettled db i) : (import_item false db i).1 = db := by
  cases hti : i.title with
  | none => simp [import_item, hti]
  | some t =>
    cases hai : i.authors with
    | nil => simp [import_item, hti, hai]
    | cons a0 rest =>
      by_cases hne : t = ""
      · simp [import_item, hti, hai, hne]
      · simp only [ItemSettled, hti, hai] at h
        rcases h with he | ⟨a, hfa, b, hfb, hcond, hnames⟩
        · exact absurd he hne
        rw [import_item_live_fst db i t a0 rest hti hai hne]
        rw [resolve_author_found hfa]
        have hcond2 : ¬(pyTruthy i.abs_cover_url &&
            !pyTruthy b.abs_cover_url) = true := by
          simp [hcond]
        rw [resolve_book_found hfb, if_neg hcond2]
        by_cases hemp : i.narrators.isEmpty
        · rw [if_pos hemp]
        · rw [if_neg hemp]
          exact go_noop_settled b.id db _ (fun s hs => hs) i.narrators hnames

theorem dbStep_import_item (db : DB) (i : NormalizedItem) :
    DBStep db (import_item false db i).1 := by
  by_cases hproc : itemProcessed i = true
  case neg =>
    rw [import_item_skip false db (Bool.not_eq_true _ ▸ hproc)]
    exact dbStep_refl db
  case pos =>
    unfold itemProcessed at hproc
    cases hti : i.title with
    | none => rw [hti] at hproc; simp [pyTruthy] at hproc
    | some t =>
      cases hai : i.authors with
      | nil => rw [hai] at hproc; simp at hproc
      | cons a0 rest =>
        rw [hti, hai] at hproc
        simp only [pyTruthy, Bool.and_eq_true, Bool.not_eq_true',
          beq_eq_false_iff_ne, ne_eq] at hproc
        rw [import_item_live_fst db i t a0 rest hti hai hproc.1]
        have step1 := dbStep_resolve_author db (pyStrip a0)
        have step2 := dbStep_resolve_book (resolve_author db (pyStrip a0)).2
          (resolve_author db (pyStrip a0)).1 t i.abs_cover_url
        by_cases hemp : i.narrators.isEmpty
        · rw [if_pos hemp]
          exact dbStep_trans step1 step2
        · rw [if_neg hemp]
          exact dbStep_trans step1 (dbStep_trans step2
            (dbStep_go _ _ i.narrators _))

theorem dbStep_fold : ∀ (items : List NormalizedItem) (db : DB),
    DBStep db (import_bookshelf_items db items false).1 := by
  intro items
  induction items with
  | nil => exact fun db => dbStep_refl db
  | cons i rest ih =>
    intro db
    exact dbStep_trans (dbStep_import_item db i)
      (ih (import_item false db i).1)

theorem settled_after : ∀ (items : List NormalizedItem) (db : DB),
    ∀ i ∈ items, ItemSettled (import_bookshelf_items db items false).1 i := by
  intro items
  induction items with
  | nil =>
    intro db i hi
    simp at hi
  | cons i0 rest ih =>
    intro db i hi
    rcases List.mem_cons.mp hi with heq | hmr
    · subst heq
      exact itemSettled_mono (dbStep_fold rest (import_item false db i).1)
        (import_item_settles db i)
    · exact ih (import_item false db i0).1 i hmr

theorem fold_noop : ∀ (items : List NormalizedItem) (db : DB),
    (∀ i ∈ items, ItemSettled db i) →
    (import_bookshelf_items db items false).1 = db := by
  intro items
  induction items with
  | nil => exact fun _ _ => rfl
  | cons i0 rest ih =>
    intro db hall
    have hstep : (import_item false db i0).1 = db :=
      import_item_noop (hall i0 (by simp))
    show (import_bookshelf_items (import_item false db i0).1 rest false).1 = db
    rw [hstep]
    exact ih db (fun i hi => hall i (by simp [hi]))

/-- **C1**: the live import pipeline is idempotent on the store: running
the same batch a second time leaves the whole store — the author, book and
narrator tables and the book-narrator associations — exactly as the first
run left it, so no new rows are created and no association is removed. -/
theorem C1_import_idempotent (db : DB) (items : List NormalizedItem) :
    (import_bookshelf_items (import_bookshelf_items db items false).1 items
        false).1 =
      (import_bookshelf_items db items false).1 :=
  fold_noop items (import_bookshelf_items db items false).1
    (fun i hi => settled_after items db i hi)

end Pulsarr
